import Mathlib

/-!
Verification development for the UPI transaction-matching repository.

The TypeScript sources are embedded shallowly:
* pure functions become Lean functions over `String`, `Rat`, `Nat`, `Int`
  and `Option`/`List`;
* JavaScript string primitives (`toLowerCase`, `includes`, `split(/\s+/)`,
  `trim`, `substring`) are re-implemented character-exactly for the ASCII
  inputs the program manipulates;
* the JavaScript runtime services that are external to the repository
  (`Date.now`, `Math.random`-based id generation, `new Date(x).toDateString()`,
  `Date.parse` on free-form strings, the engine clock) are passed in as
  explicit parameters, so every theorem quantifies over the possible
  behaviours of those collaborators;
* JavaScript numbers are modelled as exact rationals (`Rat`); the claims
  settled here do not depend on binary floating-point rounding;
* the runtime timezone is taken to be UTC, so the local calendar components
  used by `toISODate` coincide with the UTC civil date.
-/

/-! ## JavaScript string primitives -/

/-- Characters matched by the JavaScript `\s` class (ASCII part) and
trimmed by `String.prototype.trim`. -/
def isWSChar (c : Char) : Bool :=
  c = ' ' || c = '\t' || c = '\n' || c = '\r' || c = '\x0b' || c = '\x0c'

/-- ASCII decimal digit test (JavaScript `\d`). -/
def isDigitChar (c : Char) : Bool := '0' ≤ c && c ≤ '9'

/-- ASCII alphabetic test (JavaScript `[A-Za-z]`). -/
def isAlphaChar (c : Char) : Bool :=
  ('a' ≤ c && c ≤ 'z') || ('A' ≤ c && c ≤ 'Z')

/-- `String.prototype.trim` (whitespace stripped from both ends). -/
def trimWS (s : String) : String :=
  ⟨((s.data.dropWhile isWSChar).reverse.dropWhile isWSChar).reverse⟩

/-- `String.prototype.toLowerCase` for the ASCII strings this program uses. -/
def toLowerStr (s : String) : String := ⟨s.data.map Char.toLower⟩

/-- Is `pre` a prefix of `l`? (helper for substring containment). -/
def isPrefixL : List Char → List Char → Bool
  | [], _ => true
  | _ :: _, [] => false
  | a :: as, b :: bs => a = b && isPrefixL as bs

/-- Substring containment on character lists (JavaScript
`hay.includes(needle)`). -/
def includesL (hay needle : List Char) : Bool :=
  match hay with
  | [] => isPrefixL needle []
  | _ :: t => isPrefixL needle hay || includesL t needle

/-- JavaScript `hay.includes(needle)`. -/
def strIncludes (hay needle : String) : Bool := includesL hay.data needle.data

/-- JavaScript `s.substring(0, n)`. -/
def strTake (n : Nat) (s : String) : String := ⟨s.data.take n⟩

mutual

/-- Auxiliary loop for `split(/\s+/)`: accumulates the current field
(reversed) and emits it when a whitespace run starts. -/
def splitWSGo : List Char → List Char → List String
  | [], cur => [⟨cur.reverse⟩]
  | c :: rest, cur =>
    if isWSChar c then ⟨cur.reverse⟩ :: splitWSSkip rest
    else splitWSGo rest (c :: cur)

/-- Skips the remainder of a whitespace run, then resumes field
accumulation. -/
def splitWSSkip : List Char → List String
  | [] => [""]
  | c :: rest => if isWSChar c then splitWSSkip rest else splitWSGo rest [c]

end

/-- JavaScript `s.split(/\s+/)`: fields between maximal whitespace runs,
including empty fields at either end (`" a".split(/\s+/) = ["", "a"]`). -/
def splitWS (s : String) : List String := splitWSGo s.data []

/-- Digits of a string folded into a natural number (JavaScript
`parseInt` on an all-digit string). -/
def natOfDigits (cs : List Char) : Nat :=
  cs.foldl (fun n c => n * 10 + (c.toNat - '0'.toNat)) 0

/-- JavaScript `parseFloat` restricted to strings over `0-9`, `.` and `-`
(the alphabet left by `replace(/[^0-9.-]/g, '')`): an optional leading
minus sign, then a longest run of digits, an optional dot and a second
digit run; `none` when no digit is found (`NaN`). -/
def parseFloatPrefix (cs : List Char) : Option Rat :=
  let (neg, cs1) := match cs with
    | '-' :: t => (true, t)
    | _ => (false, cs)
  let ip := cs1.takeWhile isDigitChar
  let rest := cs1.dropWhile isDigitChar
  let fp := match rest with
    | '.' :: t => t.takeWhile isDigitChar
    | _ => []
  if ip.isEmpty && fp.isEmpty then none
  else
    let mag : Rat := (natOfDigits ip : Rat) + (natOfDigits fp : Rat) / ((10 : Rat) ^ fp.length)
    some (if neg then -mag else mag)

/-! ## Data model (`types.ts`)

`Category` is a string union in the source; it is embedded as `String`.
Optional TypeScript fields become `Option`; absent booleans are falsy,
captured by `truthy`. -/

abbrev Category := String

/-- JavaScript truthiness of an optional boolean field. -/
def truthy (o : Option Bool) : Bool := o.getD false

/-- JavaScript `Array.prototype.findIndex` (first index satisfying the
predicate, `none` when there is none). -/
def findIdxP (p : α → Bool) : List α → Option Nat
  | [] => none
  | a :: as => if p a then some 0 else (findIdxP p as).map (· + 1)

structure ExtractedData where
  confidence : Rat
  rawText : String
  deriving DecidableEq

structure BankTransaction where
  id : String
  date : String
  amount : Rat
  utr : Option String
  vpa : Option String
  description : String
  city : Option String
  category : Option Category
  matched : Option Bool
  matchedReceiptId : Option String
  deriving DecidableEq

structure PhonePeReceipt where
  id : String
  date : String
  amount : Rat
  utr : Option String
  merchant : String
  category : Option Category
  imageUrl : Option String
  extractedData : ExtractedData
  matched : Option Bool
  deriving DecidableEq

inductive MatchStatus
  | pending
  | approved
  | rejected
  deriving DecidableEq

structure TransactionMatch where
  bankTransaction : BankTransaction
  suggestedReceipt : Option PhonePeReceipt
  matchScore : Nat
  matchReasons : List String
  status : MatchStatus
  deriving DecidableEq

inductive CreatedBy
  | system
  | user
  deriving DecidableEq

/-- The ad-hoc `metadata` object `categorization.ts` attaches to rules
(absent from the declared `CategoryRule` interface but written and read
at runtime); object-spread updates keep the unmentioned fields. -/
structure RuleMetadata where
  isRecurring : Option Bool := none
  applyToSimilar : Option Bool := none
  isBulkTrained : Option Bool := none
  trainingFeedback : Option String := none
  lastTrainingUpdate : Option String := none
  createdFromTraining : Option Bool := none
  confidenceLevel : Option String := none
  lastCorrected : Option String := none
  correctionCount : Option Nat := none
  deriving DecidableEq

def emptyMeta : RuleMetadata := {}

structure CategoryRule where
  id : String
  name : String
  category : Category
  patterns : List String
  keywords : List String
  confidence : Rat
  createdBy : CreatedBy
  usageCount : Nat
  lastUsed : Option String
  metadata : Option RuleMetadata := none
  deriving DecidableEq

/-! ## Matching service (`matching.ts`, i.e. `src/unnamed/part_002`)

`isSameDate` compares `new Date(x).toDateString()` renderings; the engine
rendering is an external collaborator and is passed in as `jsToDateString`. -/

structure MatchCriteria where
  exactAmountMatch : Bool
  dateMatch : Bool
  utrMatch : Bool
  merchantMatch : Bool
  deriving DecidableEq

structure ScoreResult where
  score : Nat
  reasons : List String
  deriving DecidableEq

/-- `calculateMatchScore` (matching.ts lines 18–51): cumulative weights
40 (exact amount), 30 (date), 25 (UTR), 15 (merchant). -/
def calculateMatchScore (_bankTxn : BankTransaction) (_receipt : PhonePeReceipt)
    (criteria : MatchCriteria) : ScoreResult :=
  let s1 : Nat := 0
  let r1 : List String := []
  let s2 := if criteria.exactAmountMatch then s1 + 40 else s1
  let r2 := if criteria.exactAmountMatch then r1 ++ ["Exact amount match"] else r1
  let s3 := if criteria.dateMatch then s2 + 30 else s2
  let r3 := if criteria.dateMatch then r2 ++ ["Date match"] else r2
  let s4 := if criteria.utrMatch then s3 + 25 else s3
  let r4 := if criteria.utrMatch then r3 ++ ["UTR match"] else r3
  let s5 := if criteria.merchantMatch then s4 + 15 else s4
  let r5 := if criteria.merchantMatch then r4 ++ ["Merchant match"] else r4
  ⟨s5, r5⟩

/-- `isSameDate` (matching.ts lines 56–60): equality of the engine's
`toDateString` renderings of the two date strings. -/
def isSameDate (jsToDateString : String → String) (date1 date2 : String) : Bool :=
  jsToDateString date1 = jsToDateString date2

/-- `checkMerchantMatch` (matching.ts lines 66–78): case-insensitive word
overlap, counting only merchant words longer than 3 characters. -/
def checkMerchantMatch (description merchant : String) : Bool :=
  if description = "" || merchant = "" then false
  else
    let descWords := splitWS (toLowerStr description)
    let merchantWords := splitWS (toLowerStr merchant)
    merchantWords.any fun word =>
      decide (word.length > 3) && descWords.any fun descWord =>
        strIncludes descWord word || strIncludes word descWord

/-- The `MatchCriteria` record built inside `findBestMatch`
(matching.ts lines 93–98). -/
def buildCriteria (jsToDateString : String → String)
    (bankTxn : BankTransaction) (receipt : PhonePeReceipt) : MatchCriteria where
  exactAmountMatch := |bankTxn.amount - receipt.amount| < 1 / 100
  dateMatch := isSameDate jsToDateString bankTxn.date receipt.date
  utrMatch :=
    match bankTxn.utr, receipt.utr with
    | some u1, some u2 => u1 ≠ "" && u2 ≠ "" && u1 = u2
    | _, _ => false
  merchantMatch := checkMerchantMatch bankTxn.description receipt.merchant

structure BestMatch where
  receipt : PhonePeReceipt
  score : Nat
  reasons : List String
  deriving DecidableEq

/-- The acceptance test of the `findBestMatch` loop (matching.ts line
103): the score clears the 40-point threshold and strictly beats the
best seen so far. -/
def keepCandidate (score : Nat) (best : Option BestMatch) : Bool :=
  decide (score ≥ 40) &&
    (match best with
     | none => true
     | some b => decide (score > b.score))

/-- Loop body of `findBestMatch` (matching.ts lines 89–106): skip
already-matched receipts, keep a candidate only when its score clears 40
and strictly beats the current best. -/
def findBestMatchGo (jsToDateString : String → String) (bankTxn : BankTransaction) :
    List PhonePeReceipt → Option BestMatch → Option BestMatch
  | [], best => best
  | receipt :: rest, best =>
    if truthy receipt.matched then
      findBestMatchGo jsToDateString bankTxn rest best
    else
      let res := calculateMatchScore bankTxn receipt (buildCriteria jsToDateString bankTxn receipt)
      if keepCandidate res.score best then
        findBestMatchGo jsToDateString bankTxn rest (some ⟨receipt, res.score, res.reasons⟩)
      else
        findBestMatchGo jsToDateString bankTxn rest best

/-- `findBestMatch` (matching.ts lines 83–109). -/
def findBestMatch (jsToDateString : String → String) (bankTxn : BankTransaction)
    (receipts : List PhonePeReceipt) : Option BestMatch :=
  findBestMatchGo jsToDateString bankTxn receipts none

/-- The receipt-consumption update in `generateMatches`
(matching.ts lines 137–140): replace the first receipt carrying the
selected id by the selected receipt flagged `matched`. -/
def markReceipt (availableReceipts : List PhonePeReceipt) (sel : PhonePeReceipt) :
    List PhonePeReceipt :=
  match findIdxP (fun r => r.id = sel.id) availableReceipts with
  | some i => availableReceipts.set i { sel with matched := some true }
  | none => availableReceipts

/-- Main loop of `generateMatches` (matching.ts lines 124–151), threading
the `availableReceipts` copy. -/
def generateMatchesGo (jsToDateString : String → String) :
    List BankTransaction → List PhonePeReceipt → List TransactionMatch
  | [], _ => []
  | bankTxn :: rest, avail =>
    match findBestMatch jsToDateString bankTxn avail with
    | some best =>
      { bankTransaction := bankTxn
        suggestedReceipt := some best.receipt
        matchScore := best.score
        matchReasons := best.reasons
        status := .pending } ::
        generateMatchesGo jsToDateString rest (markReceipt avail best.receipt)
    | none =>
      { bankTransaction := bankTxn
        suggestedReceipt := none
        matchScore := 0
        matchReasons := ["No suitable match found"]
        status := .pending } ::
        generateMatchesGo jsToDateString rest avail

/-- Stable insertion step for the final
`matches.sort((a, b) => b.matchScore - a.matchScore)`. -/
def insertByScoreDesc (m : TransactionMatch) :
    List TransactionMatch → List TransactionMatch
  | [] => [m]
  | x :: xs =>
    if m.matchScore ≤ x.matchScore then x :: insertByScoreDesc m xs
    else m :: x :: xs

/-- Stable sort by descending `matchScore` (the ECMAScript `sort` is
stable; descending comparator `b.matchScore - a.matchScore`). -/
def sortByScoreDesc : List TransactionMatch → List TransactionMatch
  | [] => []
  | x :: xs => insertByScoreDesc x (sortByScoreDesc xs)

/-- `generateMatches` (matching.ts lines 114–154). -/
def generateMatches (jsToDateString : String → String)
    (bankTransactions : List BankTransaction) (receipts : List PhonePeReceipt) :
    List TransactionMatch :=
  let unmatchedBankTxns := bankTransactions.filter fun txn => !truthy txn.matched
  sortByScoreDesc (generateMatchesGo jsToDateString unmatchedBankTxns receipts)

/-- `applyMatches` (matching.ts lines 159–194). -/
def applyMatches (ms : List TransactionMatch)
    (bankTransactions : List BankTransaction) (receipts : List PhonePeReceipt) :
    List BankTransaction × List PhonePeReceipt :=
  let approvedMatches := ms.filter fun m => m.status = MatchStatus.approved
  let updatedBankTransactions := bankTransactions.map fun txn =>
    match approvedMatches.find? (fun m => m.bankTransaction.id = txn.id) with
    | some m =>
      match m.suggestedReceipt with
      | some r =>
        { txn with
          matched := some true
          matchedReceiptId := some r.id
          category := txn.category <|> r.category }
      | none => txn
    | none => txn
  let updatedReceipts := receipts.map fun receipt =>
    match approvedMatches.find? (fun m => (m.suggestedReceipt.map (·.id)) = some receipt.id) with
    | some _ => { receipt with matched := some true }
    | none => receipt
  (updatedBankTransactions, updatedReceipts)

/-! ## Categorization service (`categorization.ts`, i.e. `src/unnamed/part_001`)

The id generator (`Date.now` + `Math.random`) and the clock
(`new Date().toISOString()`) are runtime services; they enter as the
`freshId` and `nowISO` parameters. -/

/-- Result of `matchesRule`; the source field `matches` is a reserved
word in Lean and is rendered `isMatch`. -/
structure RuleMatch where
  isMatch : Bool
  confidence : Rat
  deriving DecidableEq

/-- `matchesRule` (categorization.ts lines 166–193): a pattern hit yields
the rule's flat confidence; otherwise `h` of `k` keyword hits yield
`min(confidence * 0.7, (h / k) * confidence)`. -/
def matchesRule (text : String) (rule : CategoryRule) : RuleMatch :=
  if text = "" then ⟨false, 0⟩
  else
    let normalizedText := trimWS (toLowerStr text)
    let patternMatches := rule.patterns.any fun pattern =>
      strIncludes normalizedText (toLowerStr pattern)
    if patternMatches then ⟨true, rule.confidence⟩
    else
      let keywordMatches := (rule.keywords.filter fun keyword =>
        strIncludes normalizedText (toLowerStr keyword)).length
      if keywordMatches > 0 then
        let keywordConfidence :=
          min (rule.confidence * (7 / 10))
            (((keywordMatches : Rat) / (rule.keywords.length : Rat)) * rule.confidence)
        ⟨true, keywordConfidence⟩
      else ⟨false, 0⟩

/-- The argument of `categorizeTransaction` is a union
`BankTransaction | PhonePeReceipt`, discriminated by the presence of a
`merchant` field. -/
inductive TxnOrReceipt
  | txn (t : BankTransaction)
  | rcpt (r : PhonePeReceipt)

/-- The text `categorizeTransaction` analyses (categorization.ts
lines 206–208). -/
def textToAnalyze : TxnOrReceipt → String
  | .rcpt r => trimWS r.merchant
  | .txn t => t.description

structure BestCat where
  category : Category
  confidence : Rat
  rule : CategoryRule
  deriving DecidableEq

structure CategorizeResult where
  category : Option Category
  confidence : Rat
  matchedRule : Option CategoryRule
  deriving DecidableEq

/-- The running-best test of the `categorizeTransaction` loop
(categorization.ts line 215): a match replaces the best seen so far when
none exists yet or its confidence is strictly larger. -/
def keepBetter (m : RuleMatch) (best : Option BestCat) : Bool :=
  m.isMatch &&
    (match best with
     | none => true
     | some b => decide (m.confidence > b.confidence))

/-- Best-rule scan of `categorizeTransaction` (categorization.ts
lines 212–222): keep the first rule attaining the running maximum. -/
def categorizeGo (text : String) : List CategoryRule → Option BestCat → Option BestCat
  | [], best => best
  | rule :: rest, best =>
    if keepBetter (matchesRule text rule) best then
      categorizeGo text rest (some ⟨rule.category, (matchesRule text rule).confidence, rule⟩)
    else
      categorizeGo text rest best

/-- `categorizeTransaction` (categorization.ts lines 198–233). -/
def categorizeTransaction (transaction : TxnOrReceipt) (rules : List CategoryRule) :
    CategorizeResult :=
  if rules.length = 0 then ⟨none, 0, none⟩
  else
    match categorizeGo (textToAnalyze transaction) rules none with
    | some best =>
      if best.confidence ≥ 1 / 2 then ⟨some best.category, best.confidence, some best.rule⟩
      else ⟨none, 0, none⟩
    | none => ⟨none, 0, none⟩

/-- Keep-first-occurrence deduplication
(`filter((w, i, arr) => arr.indexOf(w) === i)`). -/
def dedupGo (seen : List String) : List String → List String
  | [] => []
  | x :: xs =>
    if seen.contains x then dedupGo seen xs
    else x :: dedupGo (x :: seen) xs

def dedupKeepFirst (l : List String) : List String := dedupGo [] l

/-- The noise-word stoplist of `learnFromApprovedMatch`. -/
def noiseWords : List String := ["training", "system", "transaction", "payment"]

/-- `feedback?.includes(t)` coerced to a boolean (an absent feedback is
falsy). -/
def fbHas (trainingFeedback : Option String) (t : String) : Bool :=
  (trainingFeedback.map fun fb => strIncludes fb t).getD false

/-- `isBulkTraining` (categorization.ts line 252). -/
def isBulkTrainingOf (fb : Option String) : Bool := fbHas fb "[BULK_TRAINING:"

/-- `shouldCreateRule` (categorization.ts lines 253–256). -/
def shouldCreateRuleOf (fb : Option String) : Bool :=
  !fbHas fb "[TRAINING:" || !fbHas fb "[BULK_TRAINING:" ||
    fbHas fb "Create new categorization rule" ||
    fbHas fb "Create bulk categorization rules"

/-- `isRecurring` (categorization.ts lines 257–258). -/
def isRecurringOf (fb : Option String) : Bool :=
  fbHas fb "This is a recurring transaction" || fbHas fb "These are recurring transactions"

/-- `applyToSimilar` (categorization.ts line 259). -/
def applyToSimilarOf (fb : Option String) : Bool :=
  fbHas fb "Apply to similar future transactions"

/-- `confidenceLevel` (categorization.ts lines 260–261). -/
def confidenceLevelOf (fb : Option String) : String :=
  if fbHas fb "Confidence: high" then "high"
  else if fbHas fb "Confidence: low" then "low"
  else "medium"

/-- `receipt?.merchant || ''`. -/
def merchantNameOf (receipt : Option PhonePeReceipt) : String :=
  (receipt.map (·.merchant)).getD ""

/-- `allKeywords` (categorization.ts lines 264–278): merchant and
description words longer than 3 characters, up to 3 feedback words,
deduplicated keep-first, minus the noise stoplist. -/
def allKeywordsOf (transaction : BankTransaction) (receipt : Option PhonePeReceipt)
    (fb : Option String) : List String :=
  let merchantName := merchantNameOf receipt
  let baseKeywords :=
    ((splitWS (toLowerStr merchantName)).filter fun word => decide (word.length > 3)) ++
      ((splitWS (toLowerStr transaction.description)).filter fun word =>
        decide (word.length > 3))
  let feedbackKeywords :=
    match fb with
    | some f =>
      ((splitWS (toLowerStr f)).filter fun word =>
        decide (word.length > 3) && !strIncludes word "[" && !strIncludes word ":").take 3
    | none => []
  (dedupKeepFirst (baseKeywords ++ feedbackKeywords)).filter fun word =>
    !noiseWords.contains word

/-- `baseConfidence` (categorization.ts lines 283–291). -/
def baseConfidenceOf (fb : Option String) : Rat :=
  let base0 : Rat :=
    if confidenceLevelOf fb = "high" then 9 / 10
    else if confidenceLevelOf fb = "low" then 1 / 2
    else 7 / 10
  let base1 := if isRecurringOf fb then min (19 / 20) (base0 + 1 / 10) else base0
  if isBulkTrainingOf fb && applyToSimilarOf fb then min (19 / 20) (base1 + 1 / 20)
  else base1

/-- The `existingRule` search predicate (categorization.ts lines
294–300): a user rule for the approved category sharing a keyword or a
pattern with the new evidence. -/
def existingRulePred (approvedCategory : Category) (allKeywords : List String)
    (merchantName : String) (rule : CategoryRule) : Bool :=
  decide (rule.category = approvedCategory) &&
    decide (rule.createdBy = CreatedBy.user) &&
    ((allKeywords.any fun keyword =>
        rule.keywords.contains keyword ||
          rule.patterns.any fun pattern => strIncludes pattern keyword) ||
      (decide (merchantName ≠ "") &&
        rule.patterns.any fun pattern => strIncludes pattern (toLowerStr merchantName)))

/-- The enhanced copy of an existing user rule (categorization.ts lines
303–326). -/
def enhanceRule (nowISO : String) (fb : Option String) (merchantName : String)
    (allKeywords : List String) (er : CategoryRule) : CategoryRule :=
  let enhancedKeywords :=
    (er.keywords ++ allKeywords.filter fun k => !er.keywords.contains k).take 15
  let enhancedPatterns :=
    if merchantName ≠ "" then
      (dedupKeepFirst (er.patterns ++ [toLowerStr merchantName])).take 10
    else er.patterns
  { er with
    name :=
      if isRecurringOf fb then er.name ++ " (Recurring)"
      else if isBulkTrainingOf fb then er.name ++ " (Bulk Enhanced)"
      else er.name
    keywords := enhancedKeywords
    patterns := enhancedPatterns
    usageCount := er.usageCount + 1
    lastUsed := some nowISO
    confidence := min (19 / 20) (max er.confidence (baseConfidenceOf fb))
    metadata := some
      { er.metadata.getD emptyMeta with
        isRecurring := some (isRecurringOf fb)
        applyToSimilar := some (applyToSimilarOf fb)
        isBulkTrained := some (isBulkTrainingOf fb)
        trainingFeedback := fb.map (strTake 200)
        lastTrainingUpdate := some nowISO } }

/-- The freshly created user rule (categorization.ts lines 331–356). -/
def newUserRule (nowISO freshId : String) (fb : Option String)
    (approvedCategory : Category) (merchantName : String)
    (allKeywords : List String) : CategoryRule :=
  let ruleName :=
    if isBulkTrainingOf fb then
      "Bulk Rule - " ++ approvedCategory ++ " (" ++
        (if merchantName ≠ "" then merchantName else "Multiple") ++ ")"
    else if isRecurringOf fb then
      "Recurring " ++ approvedCategory ++ " - " ++
        (if merchantName ≠ "" then merchantName else "User Rule")
    else
      "User Rule - " ++ approvedCategory ++ " (" ++
        (if merchantName ≠ "" then merchantName else "Custom") ++ ")"
  { id := freshId
    name := strTake 50 ruleName
    category := approvedCategory
    patterns := if merchantName ≠ "" then [toLowerStr merchantName] else []
    keywords := allKeywords.take 10
    confidence := baseConfidenceOf fb
    createdBy := .user
    usageCount := 1
    lastUsed := some nowISO
    metadata := some
      { emptyMeta with
        isRecurring := some (isRecurringOf fb)
        applyToSimilar := some (applyToSimilarOf fb)
        isBulkTrained := some (isBulkTrainingOf fb)
        trainingFeedback := fb.map (strTake 200)
        createdFromTraining := some true
        confidenceLevel := some (confidenceLevelOf fb) } }

/-- The enhance-or-create step (categorization.ts lines 293–359). -/
def learnMerge (nowISO freshId : String) (fb : Option String)
    (approvedCategory : Category) (merchantName : String)
    (allKeywords : List String) (rules : List CategoryRule) : List CategoryRule :=
  match rules.find? (existingRulePred approvedCategory allKeywords merchantName) with
  | some er =>
    if shouldCreateRuleOf fb then
      match findIdxP (fun r => r.id = er.id) rules with
      | some i => rules.set i (enhanceRule nowISO fb merchantName allKeywords er)
      | none => rules
    else rules
  | none =>
    if shouldCreateRuleOf fb then
      rules ++ [newUserRule nowISO freshId fb approvedCategory merchantName allKeywords]
    else rules

/-- Whether the correction penalty applies to a rule
(categorization.ts lines 366–368). -/
def penaltyHits (merchantName : String) (allKeywords : List String)
    (rule : CategoryRule) : Bool :=
  (allKeywords.any fun keyword => rule.keywords.contains keyword) ||
    (decide (merchantName ≠ "") &&
      rule.patterns.any fun pattern => strIncludes pattern (toLowerStr merchantName))

/-- The penalized copy of a contradicted rule (categorization.ts lines
370–377): confidence drops by 0.1, floored at 0.3. -/
def penalizeRule (nowISO : String) (rule : CategoryRule) : CategoryRule :=
  { rule with
    confidence := max (3 / 10) (rule.confidence - 1 / 10)
    metadata := some
      { rule.metadata.getD emptyMeta with
        lastCorrected := some nowISO
        correctionCount := some (((rule.metadata.bind (·.correctionCount)).getD 0) + 1) } }

/-- The correction-penalty pass (categorization.ts lines 361–380). -/
def penaltyStep (nowISO : String) (merchantName : String) (allKeywords : List String)
    (approvedCategory : Category) (autoDetectedCategory : Option Category)
    (rules : List CategoryRule) : List CategoryRule :=
  match autoDetectedCategory with
  | some auto =>
    if auto ≠ approvedCategory then
      rules.map fun rule =>
        if rule.category = auto ∧ penaltyHits merchantName allKeywords rule = true then
          penalizeRule nowISO rule
        else rule
    else rules
  | none => rules

/-- `learnFromApprovedMatch` (categorization.ts lines 238–383).
`nowISO` stands for `new Date().toISOString()` and `freshId` for
`generateRuleId()`. -/
def learnFromApprovedMatch (nowISO freshId : String) (transaction : BankTransaction)
    (receipt : Option PhonePeReceipt) (approvedCategory : Category)
    (existingRules : List CategoryRule) (trainingFeedback : Option String) :
    List CategoryRule :=
  let merchantName := merchantNameOf receipt
  let allKeywords := allKeywordsOf transaction receipt trainingFeedback
  if allKeywords.length = 0 && !shouldCreateRuleOf trainingFeedback then existingRules
  else
    let rules1 :=
      learnMerge nowISO freshId trainingFeedback approvedCategory merchantName
        allKeywords existingRules
    penaltyStep nowISO merchantName allKeywords approvedCategory
      (transaction.category <|> receipt.bind (·.category)) rules1

/-! ## Statement parser (`src/lib/parser.ts`)

Amount normalization (`toNumberOrNaN`, `normalizeAmount`) and the date
parser (`parseDate`, `excelSerialToDate`, `toISO`, `toISODate`).
`NaN` is modelled as `none`. -/

/-- `toNumberOrNaN` (parser.ts lines 149–159) on a string-or-absent cell:
trim, strip every character outside `0-9.-`, then `parseFloat`. -/
def toNumberOrNaN (v : Option String) : Option Rat :=
  match v with
  | none => none
  | some s =>
    let t := trimWS s
    if t = "" then none
    else
      let cleaned := t.data.filter fun c => isDigitChar c || c = '.' || c = '-'
      if cleaned.isEmpty then none
      else parseFloatPrefix cleaned

/-- First operand that is a number other than zero, else the fallback
(the `if (!isNaN(x) && x !== 0)` cascade of `normalizeAmount`). -/
def nzOr (x : Option Rat) (y : Option Rat) : Option Rat :=
  match x with
  | some v => if v = 0 then y else some v
  | none => y

/-- `normalizeAmount` (parser.ts lines 136–147): precedence
amount > credit > debit among non-zero parseable values, absolute value
of the chosen one; `none` when nothing usable is found. -/
def normalizeAmount (amountStr debitStr creditStr : Option String) : Option Rat :=
  let a := toNumberOrNaN amountStr
  let c := toNumberOrNaN creditStr
  let d := toNumberOrNaN debitStr
  (nzOr a (nzOr c (nzOr d none))).map (fun v => |v|)

/-- The row-acceptance guard of `parseCSV`
(parser.ts line 57: `!isNaN(amount) && amount > 0`). -/
def csvRowKept (amountStr debitStr creditStr : Option String) : Bool :=
  match normalizeAmount amountStr debitStr creditStr with
  | some v => decide (v > 0)
  | none => false

/-! ### Civil-calendar arithmetic

`excelSerialToDate` builds a UTC timestamp and `toISODate` renders its
calendar components; with the runtime timezone fixed to UTC this is
exactly proleptic-Gregorian day arithmetic (Howard Hinnant's algorithms).
Day numbers count from 1970-01-01; spreadsheet serial 25569 is that day,
so the serial epoch 1899-12-30 sits at day `-25569`. -/

/-- Civil date of a day number (days since 1970-01-01). -/
def civilFromDays (z : Int) : Int × Nat × Nat :=
  let z' := z + 719468
  let era := Int.fdiv z' 146097
  let doe := z' - era * 146097
  let yoe := Int.fdiv (doe - Int.fdiv doe 1460 + Int.fdiv doe 36524 - Int.fdiv doe 146096) 365
  let y := yoe + era * 400
  let doy := doe - (365 * yoe + Int.fdiv yoe 4 - Int.fdiv yoe 100)
  let mp := Int.fdiv (5 * doy + 2) 153
  let d := doy - Int.fdiv (153 * mp + 2) 5 + 1
  let m := if mp < 10 then mp + 3 else mp - 9
  (y + (if m ≤ 2 then 1 else 0), m.toNat, d.toNat)

/-- Day number (days since 1970-01-01) of a civil date. -/
def daysFromCivil (y : Int) (m d : Nat) : Int :=
  let y' := if m ≤ 2 then y - 1 else y
  let era := Int.fdiv y' 400
  let yoe := y' - era * 400
  let mp : Int := if m > 2 then (m : Int) - 3 else (m : Int) + 9
  let doy := Int.fdiv (153 * mp + 2) 5 + (d : Int) - 1
  let doe := yoe * 365 + Int.fdiv yoe 4 - Int.fdiv yoe 100 + doy
  era * 146097 + doe - 719468

/-- `String(n).padStart(2, '0')` for the non-empty numerals produced
here. -/
def padStart2 (s : String) : String :=
  if s.length ≥ 2 then s else "0" ++ s

/-- `toISO` (parser.ts lines 263–268). -/
def toISO (yyyy mm dd : String) : String :=
  yyyy ++ "-" ++ padStart2 mm ++ "-" ++ padStart2 dd

/-- `toISODate` (parser.ts lines 270–275) applied to the date holding
day number `z` (UTC runtime). -/
def isoOfDays (z : Int) : String :=
  let c := civilFromDays z
  toISO (toString c.1) (toString c.2.1) (toString c.2.2)

/-- `excelSerialToDate` composed with `toISODate`
(parser.ts lines 278–284): epoch 1899-12-30 plus the serial in days. -/
def excelSerialISO (serial : Int) : String :=
  isoOfDays (serial - 25569)

/-! ### The `parseDate` pattern cascade

Each anchored regular expression of `parseDate` (parser.ts lines
169–242) alternates bounded digit/letter runs with single separators, so
it is matched exactly by maximal-munch runs with length checks. -/

/-- `[\/\-]` separator class. -/
def isSlashDash (c : Char) : Bool := c = '/' || c = '-'

/-- `[/\-\s]` separator class. -/
def isSlashDashWS (c : Char) : Bool := isSlashDash c || isWSChar c

/-- `monthToNumber` (parser.ts lines 244–261). -/
def monthToNumber (mon : String) : Option String :=
  match toLowerStr mon with
  | "jan" => some "01" | "january" => some "01"
  | "feb" => some "02" | "february" => some "02"
  | "mar" => some "03" | "march" => some "03"
  | "apr" => some "04" | "april" => some "04"
  | "may" => some "05"
  | "jun" => some "06" | "june" => some "06"
  | "jul" => some "07" | "july" => some "07"
  | "aug" => some "08" | "august" => some "08"
  | "sep" => some "09" | "sept" => some "09" | "september" => some "09"
  | "oct" => some "10" | "october" => some "10"
  | "nov" => some "11" | "november" => some "11"
  | "dec" => some "12" | "december" => some "12"
  | _ => none

/-- Split off a maximal run satisfying `p`. -/
def takeRun (p : Char → Bool) (cs : List Char) : List Char × List Char :=
  (cs.takeWhile p, cs.dropWhile p)

/-- `^(\d{4})[\/\-](\d{1,2})[\/\-](\d{1,2})$` (parser.ts line 189). -/
def tryYMD (cs : List Char) : Option String :=
  let (y, r1) := takeRun isDigitChar cs
  match r1 with
  | s1 :: r2 =>
    if isSlashDash s1 ∧ y.length = 4 then
      let (mo, r3) := takeRun isDigitChar r2
      match r3 with
      | s2 :: r4 =>
        if isSlashDash s2 ∧ 1 ≤ mo.length ∧ mo.length ≤ 2 then
          let (d, r5) := takeRun isDigitChar r4
          if r5.isEmpty ∧ 1 ≤ d.length ∧ d.length ≤ 2 then
            some (toISO ⟨y⟩ ⟨mo⟩ ⟨d⟩)
          else none
        else none
      | [] => none
    else none
  | [] => none

/-- `^(\d{1,2})[\/\-](\d{1,2})[\/\-](\d{4})$` (parser.ts line 196). -/
def tryDMY4 (cs : List Char) : Option String :=
  let (d, r1) := takeRun isDigitChar cs
  match r1 with
  | s1 :: r2 =>
    if isSlashDash s1 ∧ 1 ≤ d.length ∧ d.length ≤ 2 then
      let (mo, r3) := takeRun isDigitChar r2
      match r3 with
      | s2 :: r4 =>
        if isSlashDash s2 ∧ 1 ≤ mo.length ∧ mo.length ≤ 2 then
          let (y, r5) := takeRun isDigitChar r4
          if r5.isEmpty ∧ y.length = 4 then
            some (toISO ⟨y⟩ ⟨mo⟩ ⟨d⟩)
          else none
        else none
      | [] => none
    else none
  | [] => none

/-- Two-digit years are moved into the 2000s
(`y.length === 2 ? String(2000 + parseInt(y, 10)) : y`). -/
def expandYear (y : List Char) : String :=
  if y.length = 2 then toString (2000 + natOfDigits y) else ⟨y⟩

/-- `^(\d{1,2})[/\-\s]([A-Za-z]{3})[/\-\s](\d{2,4})$` (parser.ts
line 203); an unknown three-letter month falls through. -/
def tryDMonY (cs : List Char) : Option String :=
  let (d, r1) := takeRun isDigitChar cs
  match r1 with
  | s1 :: r2 =>
    if isSlashDashWS s1 ∧ 1 ≤ d.length ∧ d.length ≤ 2 then
      let (mon, r3) := takeRun isAlphaChar r2
      match r3 with
      | s2 :: r4 =>
        if isSlashDashWS s2 ∧ mon.length = 3 then
          let (y, r5) := takeRun isDigitChar r4
          if r5.isEmpty ∧ 2 ≤ y.length ∧ y.length ≤ 4 then
            (monthToNumber ⟨mon⟩).map fun mm => toISO (expandYear y) mm ⟨d⟩
          else none
        else none
      | [] => none
    else none
  | [] => none

/-- `^(\d{1,2})\s+([A-Za-z]{3,9})\s+(\d{2,4})$` (parser.ts line 212);
an unknown month name falls through. -/
def tryDMonFull (cs : List Char) : Option String :=
  let (d, r1) := takeRun isDigitChar cs
  let (ws1, r2) := takeRun isWSChar r1
  if 1 ≤ d.length ∧ d.length ≤ 2 ∧ 1 ≤ ws1.length then
    let (mon, r3) := takeRun isAlphaChar r2
    let (ws2, r4) := takeRun isWSChar r3
    if 3 ≤ mon.length ∧ mon.length ≤ 9 ∧ 1 ≤ ws2.length then
      let (y, r5) := takeRun isDigitChar r4
      if r5.isEmpty ∧ 2 ≤ y.length ∧ y.length ≤ 4 then
        (monthToNumber ⟨mon⟩).map fun mm => toISO (expandYear y) mm ⟨d⟩
      else none
    else none
  else none

/-- `^(\d{1,2})[\/\-](\d{1,2})[\/\-](\d{2})$` (parser.ts line 221). -/
def tryDMY2 (cs : List Char) : Option String :=
  let (d, r1) := takeRun isDigitChar cs
  match r1 with
  | s1 :: r2 =>
    if isSlashDash s1 ∧ 1 ≤ d.length ∧ d.length ≤ 2 then
      let (mo, r3) := takeRun isDigitChar r2
      match r3 with
      | s2 :: r4 =>
        if isSlashDash s2 ∧ 1 ≤ mo.length ∧ mo.length ≤ 2 then
          let (y, r5) := takeRun isDigitChar r4
          if r5.isEmpty ∧ y.length = 2 then
            some (toISO (toString (2000 + natOfDigits y)) ⟨mo⟩ ⟨d⟩)
          else none
        else none
      | [] => none
    else none
  | [] => none

/-- `/^\d+$/` with `20000 < serial < 60000` (parser.ts lines 229–235). -/
def trySerial (cs : List Char) : Option String :=
  if cs ≠ [] ∧ cs.all isDigitChar then
    let serial := natOfDigits cs
    if 20000 < serial ∧ serial < 60000 then some (excelSerialISO serial)
    else none
  else none

/-- The whole anchored-pattern cascade of `parseDate` on the trimmed
string, in source order. -/
def patternCascade (cs : List Char) : Option String :=
  (tryYMD cs).orElse fun _ =>
  (tryDMY4 cs).orElse fun _ =>
  (tryDMonY cs).orElse fun _ =>
  (tryDMonFull cs).orElse fun _ =>
  (tryDMY2 cs).orElse fun _ =>
  trySerial cs

/-- The three runtime shapes `parseDate` accepts. A `Date` object is
carried as its timestamp in milliseconds (`none` for an invalid date);
finite numeric input is carried as an integral serial. -/
inductive DateInput
  | str (s : String)
  | num (n : Int)
  | dateObj (ms : Option Int)

/-- `parseDate` (parser.ts lines 169–242). `today` stands for
`fallbackToday()` and `jsDateParse` for the engine's `new Date(string)`
timestamp (in ms, `none` when invalid) used in the final fallback. -/
def parseDate (today : String) (jsDateParse : String → Option Int) :
    DateInput → String
  | .dateObj none => today
  | .dateObj (some ms) => isoOfDays (Int.fdiv ms 86400000)
  | .num n => excelSerialISO n
  | .str s =>
    let raw := trimWS s
    if raw = "" then today
    else
      match patternCascade raw.data with
      | some iso => iso
      | none =>
        match jsDateParse raw with
        | some ms => isoOfDays (Int.fdiv ms 86400000)
        | none => today

/-! ## The second matcher (`matchTransactions`, parser.ts lines 464–523)

Its per-pair score block (lines 480–504) accumulates 50 (exact amount),
30 (same date string) or 20 (dates within one day), and 40 (UTR
equality). `new Date(x).getTime()` on the stored date strings is the
engine collaborator `jsTime` (ms, `none` for an invalid date). -/

/-- Amount summand of the `matchTransactions` pair score. -/
def mtAmountPart (bankTx : BankTransaction) (receipt : PhonePeReceipt) : Nat :=
  if |bankTx.amount - receipt.amount| < 1 / 100 then 50 else 0

/-- Date summand of the `matchTransactions` pair score: 30 on equal date
strings, else 20 when the parsed timestamps lie within 24 hours. -/
def mtDatePart (jsTime : String → Option Int) (bankTx : BankTransaction)
    (receipt : PhonePeReceipt) : Nat :=
  if bankTx.date = receipt.date then 30
  else
    match jsTime bankTx.date, jsTime receipt.date with
    | some t1, some t2 => if |t1 - t2| ≤ 86400000 then 20 else 0
    | _, _ => 0

/-- UTR summand of the `matchTransactions` pair score. -/
def mtUtrPart (bankTx : BankTransaction) (receipt : PhonePeReceipt) : Nat :=
  match bankTx.utr, receipt.utr with
  | some u1, some u2 => if u1 ≠ "" ∧ u2 ≠ "" ∧ u1 = u2 then 40 else 0
  | _, _ => 0

/-- Total pair score of `matchTransactions`. -/
def mtPairScore (jsTime : String → Option Int) (bankTx : BankTransaction)
    (receipt : PhonePeReceipt) : Nat :=
  mtAmountPart bankTx receipt + mtDatePart jsTime bankTx receipt + mtUtrPart bankTx receipt

/-! ## Spec-side readings and derived notions

These definitions render claim language (not source code) and are
compared against the embedded functions in the theorems below. -/

/-- Spec-side amount policy: absolute value of the first value in the
given precedence order that parses (`some`) and is non-zero. -/
def firstNonZeroAbs (vals : List (Option Rat)) : Option Rat :=
  ((vals.filterMap id).find? fun v => decide (v ≠ 0)).map fun v => |v|

/-- The receipt ids referenced as `suggestedReceipt` by a match list. -/
def suggestedReceiptIds (ms : List TransactionMatch) : List String :=
  ms.filterMap fun m => m.suggestedReceipt.map (·.id)

/-- The first approved match referencing a transaction id. -/
def approvedFor (ms : List TransactionMatch) (txnId : String) : Option TransactionMatch :=
  (ms.filter fun m => m.status = MatchStatus.approved).find? fun m =>
    m.bankTransaction.id = txnId

/-- Per-transaction effect of `applyMatches`: an approved match with a
suggested receipt consumes the transaction and fills the category only
when the transaction has none. -/
def approvedUpdateTxn (ms : List TransactionMatch) (txn : BankTransaction) :
    BankTransaction :=
  match approvedFor ms txn.id with
  | some m =>
    match m.suggestedReceipt with
    | some r =>
      { txn with
        matched := some true
        matchedReceiptId := some r.id
        category := txn.category <|> r.category }
    | none => txn
  | none => txn

/-- Per-receipt effect of `applyMatches`: referenced by some approved
match's suggested receipt, the receipt is flagged consumed; otherwise it
is untouched. -/
def approvedUpdateRcpt (ms : List TransactionMatch) (receipt : PhonePeReceipt) :
    PhonePeReceipt :=
  match (ms.filter fun m => m.status = MatchStatus.approved).find?
      (fun m => (m.suggestedReceipt.map (·.id)) = some receipt.id) with
  | some _ => { receipt with matched := some true }
  | none => receipt

/-- Spec-side reading of the system-rule invariant, as amended: the rule
keeps every field except that its confidence may have taken one
correction penalty. -/
def systemRulePreserved (r r2 : CategoryRule) : Prop :=
  r2.id = r.id ∧ r2.name = r.name ∧ r2.category = r.category ∧
    r2.patterns = r.patterns ∧ r2.keywords = r.keywords ∧
    r2.createdBy = CreatedBy.system ∧ r2.usageCount = r.usageCount ∧
    r2.lastUsed = r.lastUsed ∧
    (r2.confidence = r.confidence ∨
      r2.confidence = max (3 / 10) (r.confidence - 1 / 10))

/-! ## Concrete fixtures used by counterexamples and witnesses -/

def fxTxn : BankTransaction :=
  ⟨"t1", "2024-01-15", 100, some "432109876543", none, "payment to store", none,
    none, none, none⟩

def fxRcpt : PhonePeReceipt :=
  ⟨"r1", "2024-01-15", 100, some "432109876543", "Store", none, none,
    ⟨1, "raw"⟩, none⟩

def fxLagTxn : BankTransaction :=
  ⟨"t1", "2024-01-15", 100, none, none, "", none, none, none, none⟩

def fxLagRcpt : PhonePeReceipt :=
  ⟨"r1", "2024-01-16", 100, none, "", none, none, ⟨1, ""⟩, none⟩

def fxCatTxn : BankTransaction :=
  ⟨"t1", "2024-01-15", 100, none, none, "card payment", none, some "Shopping",
    none, none⟩

def fxCatRcpt : PhonePeReceipt :=
  ⟨"r1", "2024-01-15", 100, none, "Zomato", some "Food & Dining", none,
    ⟨1, "raw"⟩, none⟩

def fxApproved : TransactionMatch :=
  ⟨fxCatTxn, some fxCatRcpt, 70, ["Exact amount match", "Date match"], .approved⟩

def fxSysRule : CategoryRule :=
  { id := "s1"
    name := "Food Delivery"
    category := "Food & Dining"
    patterns := ["zomato", "swiggy"]
    keywords := ["food", "restaurant"]
    confidence := 9 / 10
    createdBy := .system
    usageCount := 0
    lastUsed := none }

def fxCorrTxn : BankTransaction :=
  ⟨"t1", "2024-01-15", 100, none, none, "food stall", none, some "Food & Dining",
    none, none⟩

def fxBareTxn : BankTransaction :=
  ⟨"t1", "2024-01-15", 100, none, none, "", none, none, none, none⟩

def fxChaiRcpt : PhonePeReceipt :=
  ⟨"r1", "2024-01-15", 100, none, "Chai Point", none, none, ⟨1, "raw"⟩, none⟩

def fxDupTxn2 : BankTransaction :=
  ⟨"t2", "2024-01-15", 100, none, none, "", none, none, none, none⟩

def fxDupRcptB : PhonePeReceipt :=
  ⟨"r1", "2024-01-15", 100, none, "", none, none, ⟨1, ""⟩, none⟩

def fxKwRule : CategoryRule :=
  { id := "k1"
    name := "Movies & Events"
    category := "Entertainment"
    patterns := ["bookmyshow"]
    keywords := ["movie", "cinema", "ticket", "show"]
    confidence := 9 / 10
    createdBy := .system
    usageCount := 0
    lastUsed := none }

/-- **C6**: the resolved transaction amount is the absolute value of the
first non-zero parseable value among the `amount`, `credit` and `debit`
columns, in that precedence order; a row resolving to `NaN` or a
non-positive amount is dropped by the `parseCSV` guard; and the row
`amount="0"`, `credit="500"`, `debit="0"` resolves to `500`. -/
theorem claim_C6_amount_precedence :
    (∀ amountStr debitStr creditStr,
      normalizeAmount amountStr debitStr creditStr =
        firstNonZeroAbs
          [toNumberOrNaN amountStr, toNumberOrNaN creditStr, toNumberOrNaN debitStr]) ∧
    (∀ amountStr debitStr creditStr,
      csvRowKept amountStr debitStr creditStr = true ↔
        ∃ v, normalizeAmount amountStr debitStr creditStr = some v ∧ 0 < v) ∧
    normalizeAmount (some "0") (some "0") (some "500") = some 500 := by
  refine ⟨?_, ?_, ?_⟩
  · intro amountStr debitStr creditStr
    simp only [normalizeAmount, firstNonZeroAbs]
    cases toNumberOrNaN amountStr <;> cases toNumberOrNaN creditStr <;>
      cases toNumberOrNaN debitStr <;>
      simp [nzOr, List.filterMap, List.find?] <;>
      split_ifs <;> simp_all
  · intro amountStr debitStr creditStr
    simp only [csvRowKept]
    cases normalizeAmount amountStr debitStr creditStr <;> simp
  · simp +decide [normalizeAmount, toNumberOrNaN, trimWS, parseFloatPrefix, natOfDigits,
      isDigitChar, isWSChar, nzOr, List.takeWhile, List.dropWhile, List.filter]

/-- **C3 counterexample**: in the scorer used by the matching pass
(`calculateMatchScore`), a UTR-only pair scores 25 while a date-only pair
scores 30, so the UTR weight is not strictly above the date weight and a
UTR-only hit scores lower, not higher, than a date-only hit. -/
theorem claim_C3_counterexample :
    (calculateMatchScore fxTxn fxRcpt ⟨false, false, true, false⟩).score = 25 ∧
    (calculateMatchScore fxTxn fxRcpt ⟨false, true, false, false⟩).score = 30 ∧
    25 < 30 := by decide

/-- **C3 amended**: the matching pass's weights rank
merchant 15 < UTR 25 < date 30 < amount 40, so UTR is third, not second;
the claimed ranking (UTR strictly between amount and date) holds in the
secondary matcher `matchTransactions` of parser.ts, whose summands are
amount 50, UTR 40, exact date 30, one-day lag 20. -/
theorem claim_C3_amended :
    (∀ (b : BankTransaction) (r : PhonePeReceipt),
      (calculateMatchScore b r ⟨true, false, false, false⟩).score = 40 ∧
      (calculateMatchScore b r ⟨false, true, false, false⟩).score = 30 ∧
      (calculateMatchScore b r ⟨false, false, true, false⟩).score = 25 ∧
      (calculateMatchScore b r ⟨false, false, false, true⟩).score = 15) ∧
    ((15 : Nat) < 25 ∧ 25 < 30 ∧ 30 < 40) ∧
    (∀ (b : BankTransaction) (r : PhonePeReceipt) (u : String),
      b.utr = some u → r.utr = some u → u ≠ "" → mtUtrPart b r = 40) ∧
    (∀ (b : BankTransaction) (r : PhonePeReceipt),
      b.amount = r.amount → mtAmountPart b r = 50) ∧
    (∀ (jsTime : String → Option Int) (b : BankTransaction) (r : PhonePeReceipt),
      b.date = r.date → mtDatePart jsTime b r = 30) ∧
    ((20 : Nat) < 30 ∧ 30 < 40 ∧ 40 < 50) := by
  refine ⟨fun b r => by simp [calculateMatchScore], by omega, ?_, ?_, ?_, by omega⟩
  · intro b r u h1 h2 h3
    simp [mtUtrPart, h1, h2, h3]
  · intro b r h
    simp [mtAmountPart, h]
  · intro jsTime b r h
    simp [mtDatePart, h]

/-- Witness for `claim_C3_amended` at concrete inputs. -/
theorem claim_C3_amended_witness :
    mtUtrPart fxTxn fxRcpt = 40 ∧ mtAmountPart fxTxn fxRcpt = 50 ∧
    mtDatePart (fun _ => none) fxTxn fxRcpt = 30 :=
  ⟨claim_C3_amended.2.2.1 fxTxn fxRcpt "432109876543" rfl rfl (by decide),
   claim_C3_amended.2.2.2.1 fxTxn fxRcpt rfl,
   claim_C3_amended.2.2.2.2.1 (fun _ => none) fxTxn fxRcpt rfl⟩

/-- **C4 counterexample**: `fxLagTxn`/`fxLagRcpt` carry equal amounts and
dates one calendar day apart, yet the matching pass's score for the pair
is exactly the amount weight 40 with no date reason: the scorer of
`generateMatches` grants no settlement-lag partial credit. The date
collaborator is instantiated to the identity rendering, which separates
the two distinct day strings. -/
theorem claim_C4_counterexample :
    daysFromCivil 2024 1 16 - daysFromCivil 2024 1 15 = 1 ∧
    fxLagTxn.date ≠ fxLagRcpt.date ∧
    calculateMatchScore fxLagTxn fxLagRcpt (buildCriteria id fxLagTxn fxLagRcpt) =
      ⟨40, ["Exact amount match"]⟩ := by
  refine ⟨by decide, by decide, ?_⟩
  simp +decide [calculateMatchScore, buildCriteria, isSameDate, checkMerchantMatch,
    fxLagTxn, fxLagRcpt]

/-- **C4 amended**: the settlement-lag partial credit exists only in the
secondary matcher `matchTransactions` (parser.ts): for unequal date
strings whose parsed times lie within 24 hours its date summand is 20,
positive and below the exact-equality 30; the matching pass's scorer
(`calculateMatchScore`) has no partial tier — its date criterion
contributes exactly 30 or nothing. -/
theorem claim_C4_amended :
    (∀ (jsTime : String → Option Int) (b : BankTransaction) (r : PhonePeReceipt)
      (t1 t2 : Int),
      b.date ≠ r.date → jsTime b.date = some t1 → jsTime r.date = some t2 →
      |t1 - t2| ≤ 86400000 →
      mtDatePart jsTime b r = 20 ∧ 0 < 20 ∧ (20 : Nat) < 30) ∧
    (∀ (b : BankTransaction) (r : PhonePeReceipt) (cr : MatchCriteria),
      (calculateMatchScore b r { cr with dateMatch := true }).score =
        (calculateMatchScore b r { cr with dateMatch := false }).score + 30) := by
  constructor
  · intro jsTime b r t1 t2 hne h1 h2 hle
    refine ⟨?_, by omega, by omega⟩
    simp [mtDatePart, hne, h1, h2, hle]
  · intro b r cr
    rcases cr with ⟨a, d, u, m⟩
    cases a <;> cases u <;> cases m <;> simp [calculateMatchScore]

/-- Witness for `claim_C4_amended` at concrete inputs. -/
theorem claim_C4_amended_witness :
    mtDatePart (fun s => if s = "2024-01-15" then some 0 else some 86400000)
      fxLagTxn fxLagRcpt = 20 :=
  (claim_C4_amended.1 (fun s => if s = "2024-01-15" then some 0 else some 86400000)
    fxLagTxn fxLagRcpt 0 86400000 (by decide) (by decide) (by decide) (by decide)).1

/-! ## Helper lemmas on the string primitives -/

theorem dropWhile_of_all_not {p : Char → Bool} :
    ∀ l : List Char, (∀ c ∈ l, p c = false) → l.dropWhile p = l := by
  intro l h
  cases l with
  | nil => rfl
  | cons a as => simp [List.dropWhile, h a (by simp)]

theorem trimWS_of_no_ws (cs : List Char) (h : ∀ c ∈ cs, isWSChar c = false) :
    trimWS ⟨cs⟩ = ⟨cs⟩ := by
  simp only [trimWS]
  rw [dropWhile_of_all_not cs h, dropWhile_of_all_not cs.reverse (by simpa using h)]
  simp

theorem takeWhile_append_of {p : Char → Bool} (l1 : List Char) (c : Char)
    (l2 : List Char) (h1 : ∀ x ∈ l1, p x = true) (hc : p c = false) :
    (l1 ++ c :: l2).takeWhile p = l1 := by
  induction l1 with
  | nil => simp [List.takeWhile, hc]
  | cons a as ih =>
    simp only [List.cons_append, List.takeWhile, h1 a (by simp)]
    simp [ih fun x hx => h1 x (by simp [hx])]

theorem dropWhile_append_of {p : Char → Bool} (l1 : List Char) (c : Char)
    (l2 : List Char) (h1 : ∀ x ∈ l1, p x = true) (hc : p c = false) :
    (l1 ++ c :: l2).dropWhile p = c :: l2 := by
  induction l1 with
  | nil => simp [List.dropWhile, hc]
  | cons a as ih =>
    simp only [List.cons_append, List.dropWhile, h1 a (by simp)]
    exact ih fun x hx => h1 x (by simp [hx])

theorem takeRun_append {p : Char → Bool} (l1 : List Char) (c : Char)
    (l2 : List Char) (h1 : ∀ x ∈ l1, p x = true) (hc : p c = false) :
    takeRun p (l1 ++ c :: l2) = (l1, c :: l2) := by
  simp [takeRun, takeWhile_append_of l1 c l2 h1 hc, dropWhile_append_of l1 c l2 h1 hc]

theorem takeRun_all {p : Char → Bool} (l : List Char) (h : ∀ x ∈ l, p x = true) :
    takeRun p l = (l, []) := by
  simp only [takeRun, Prod.mk.injEq]
  constructor
  · induction l with
    | nil => rfl
    | cons a as ih =>
      simp [List.takeWhile, h a (by simp), ih fun x hx => h x (by simp [hx])]
  · induction l with
    | nil => rfl
    | cons a as ih =>
      simp [List.dropWhile, h a (by simp), ih fun x hx => h x (by simp [hx])]

theorem not_ws_of_digit {c : Char} (h : isDigitChar c = true) : isWSChar c = false := by
  by_contra h2
  simp only [Bool.not_eq_false, isWSChar] at h2
  simp only [Bool.or_eq_true, decide_eq_true_eq] at h2
  rcases h2 with ((((rfl | rfl) | rfl) | rfl) | rfl) | rfl <;> simp [isDigitChar] at h

theorem tryYMD_dmy (dd mm yyyy : List Char) (hd : ∀ c ∈ dd, isDigitChar c = true)
    (hlen : dd.length ≤ 2) :
    tryYMD (dd ++ ('/' :: (mm ++ ('/' :: yyyy)))) = none := by
  have t := takeRun_append dd '/' (mm ++ ('/' :: yyyy)) hd (by decide)
  unfold tryYMD
  rw [t]
  simp only []
  rw [if_neg]
  rintro ⟨-, h4⟩
  omega

theorem tryDMY4_dmy (dd mm yyyy : List Char) (hd : ∀ c ∈ dd, isDigitChar c = true)
    (hm : ∀ c ∈ mm, isDigitChar c = true) (hy : ∀ c ∈ yyyy, isDigitChar c = true)
    (hd1 : 1 ≤ dd.length) (hd2 : dd.length ≤ 2) (hm1 : 1 ≤ mm.length)
    (hm2 : mm.length ≤ 2) (hy4 : yyyy.length = 4) :
    tryDMY4 (dd ++ ('/' :: (mm ++ ('/' :: yyyy)))) = some (toISO ⟨yyyy⟩ ⟨mm⟩ ⟨dd⟩) := by
  have t1 := takeRun_append dd '/' (mm ++ ('/' :: yyyy)) hd (by decide)
  have t2 := takeRun_append mm '/' yyyy hm (by decide)
  have t3 := takeRun_all yyyy hy
  unfold tryDMY4
  rw [t1]
  simp only [t2, t3]
  rw [if_pos ⟨by decide, hd1, hd2⟩, if_pos ⟨by decide, hm1, hm2⟩,
    if_pos ⟨by simp, hy4⟩]

theorem tryYMD_all_digits (cs : List Char) (h : ∀ c ∈ cs, isDigitChar c = true) :
    tryYMD cs = none := by
  unfold tryYMD
  rw [takeRun_all cs h]

theorem tryDMY4_all_digits (cs : List Char) (h : ∀ c ∈ cs, isDigitChar c = true) :
    tryDMY4 cs = none := by
  unfold tryDMY4
  rw [takeRun_all cs h]

theorem tryDMonY_all_digits (cs : List Char) (h : ∀ c ∈ cs, isDigitChar c = true) :
    tryDMonY cs = none := by
  unfold tryDMonY
  rw [takeRun_all cs h]

theorem tryDMY2_all_digits (cs : List Char) (h : ∀ c ∈ cs, isDigitChar c = true) :
    tryDMY2 cs = none := by
  unfold tryDMY2
  rw [takeRun_all cs h]

theorem tryDMonFull_all_digits (cs : List Char) (h : ∀ c ∈ cs, isDigitChar c = true) :
    tryDMonFull cs = none := by
  unfold tryDMonFull
  rw [takeRun_all cs h]
  simp [takeRun]

theorem trySerial_of_digits (cs : List Char) (hne : cs ≠ [])
    (h : ∀ c ∈ cs, isDigitChar c = true) (h1 : 20000 < natOfDigits cs)
    (h2 : natOfDigits cs < 60000) :
    trySerial cs = some (excelSerialISO (natOfDigits cs)) := by
  unfold trySerial
  rw [if_pos ⟨hne, by simpa [List.all_eq_true] using h⟩, if_pos ⟨h1, h2⟩]

theorem mk_eq_empty_iff (l : List Char) : (⟨l⟩ : String) = "" ↔ l = [] := by
  constructor
  · intro h
    simpa using congrArg String.data h
  · intro h
    simp [h]

/-- **C7**: headline behaviours of the date parser. (1) Any string of the
form `DD/MM/YYYY` (one or two digits, one or two digits, four digits)
parses to the ISO reordering with zero padding, for every fallback
oracle — e.g. `"15/01/2024" → "2024-01-15"`. (2) Any bare digit string
whose value lies strictly between 20000 and 60000 parses as a
spreadsheet serial date: the civil date 1899-12-30 plus the serial in
days; serial 45000 is the fixed date `2023-03-15`. (3) A non-empty
trimmed input matching no pattern and rejected by the engine's date
parse falls back to `today`, as does an all-whitespace input. Totality
is by construction: `parseDate` returns a string on every input. -/
theorem claim_C7_parse_date (today : String) (jsDateParse : String → Option Int) :
    (∀ dd mm yyyy : List Char,
      (∀ c ∈ dd, isDigitChar c = true) → (∀ c ∈ mm, isDigitChar c = true) →
      (∀ c ∈ yyyy, isDigitChar c = true) →
      1 ≤ dd.length → dd.length ≤ 2 → 1 ≤ mm.length → mm.length ≤ 2 →
      yyyy.length = 4 →
      parseDate today jsDateParse (.str ⟨dd ++ ('/' :: (mm ++ ('/' :: yyyy)))⟩) =
        toISO ⟨yyyy⟩ ⟨mm⟩ ⟨dd⟩) ∧
    (∀ cs : List Char, cs ≠ [] → (∀ c ∈ cs, isDigitChar c = true) →
      20000 < natOfDigits cs → natOfDigits cs < 60000 →
      parseDate today jsDateParse (.str ⟨cs⟩) = excelSerialISO (natOfDigits cs)) ∧
    excelSerialISO 45000 = "2023-03-15" ∧
    (∀ s : String, trimWS s ≠ "" → patternCascade (trimWS s).data = none →
      jsDateParse (trimWS s) = none → parseDate today jsDateParse (.str s) = today) ∧
    (∀ s : String, trimWS s = "" → parseDate today jsDateParse (.str s) = today) := by
  refine ⟨?_, ?_, by decide, ?_, ?_⟩
  · intro dd mm yyyy hdd hmm hyy hd1 hd2 hm1 hm2 hy4
    have hl : ∀ c ∈ dd ++ ('/' :: (mm ++ ('/' :: yyyy))), isWSChar c = false := by
      intro c hc
      simp only [List.mem_append, List.mem_cons] at hc
      rcases hc with h | h | h | h | h
      · exact not_ws_of_digit (hdd c h)
      · subst h; decide
      · exact not_ws_of_digit (hmm c h)
      · subst h; decide
      · exact not_ws_of_digit (hyy c h)
    have htrim := trimWS_of_no_ws _ hl
    have hne : (⟨dd ++ ('/' :: (mm ++ ('/' :: yyyy)))⟩ : String) ≠ "" := by
      intro hcon
      rw [mk_eq_empty_iff] at hcon
      simp at hcon
    simp only [parseDate, htrim]
    rw [if_neg hne]
    have hcas : patternCascade (dd ++ ('/' :: (mm ++ ('/' :: yyyy)))) =
        some (toISO ⟨yyyy⟩ ⟨mm⟩ ⟨dd⟩) := by
      simp only [patternCascade, tryYMD_dmy dd mm yyyy hdd hd2,
        tryDMY4_dmy dd mm yyyy hdd hmm hyy hd1 hd2 hm1 hm2 hy4, Option.orElse]
    rw [hcas]
  · intro cs hne hdig h1 h2
    have hl : ∀ c ∈ cs, isWSChar c = false := fun c hc => not_ws_of_digit (hdig c hc)
    have htrim := trimWS_of_no_ws _ hl
    have hne2 : (⟨cs⟩ : String) ≠ "" := by
      intro hcon
      rw [mk_eq_empty_iff] at hcon
      exact hne hcon
    simp only [parseDate, htrim]
    rw [if_neg hne2]
    have hcas : patternCascade cs = some (excelSerialISO (natOfDigits cs)) := by
      simp only [patternCascade, tryYMD_all_digits cs hdig, tryDMY4_all_digits cs hdig,
        tryDMonY_all_digits cs hdig, tryDMonFull_all_digits cs hdig,
        tryDMY2_all_digits cs hdig, trySerial_of_digits cs hne hdig h1 h2, Option.orElse]
    rw [hcas]
  · intro s h1 h2 h3
    simp only [parseDate]
    rw [if_neg h1, h2, h3]
  · intro s h1
    simp only [parseDate]
    rw [if_pos h1]

/-- Witness for `claim_C7_parse_date`: `"15/01/2024"` parses to
`2024-01-15`, `"45000"` to the serial date `2023-03-15`, and a
pattern-free string falls back to today. -/
theorem claim_C7_witness :
    parseDate "2026-10-11" (fun _ => none)
        (.str ⟨['1', '5'] ++ ('/' :: (['0', '1'] ++ ('/' :: ['2', '0', '2', '4'])))⟩) =
      toISO ⟨['2', '0', '2', '4']⟩ ⟨['0', '1']⟩ ⟨['1', '5']⟩ ∧
    parseDate "2026-10-11" (fun _ => none) (.str ⟨['4', '5', '0', '0', '0']⟩) =
      excelSerialISO (natOfDigits ['4', '5', '0', '0', '0']) ∧
    parseDate "2026-10-11" (fun _ => none) (.str "not a date!") = "2026-10-11" :=
  ⟨(claim_C7_parse_date "2026-10-11" (fun _ => none)).1 ['1', '5'] ['0', '1']
      ['2', '0', '2', '4'] (by decide) (by decide) (by decide) (by decide) (by decide)
      (by decide) (by decide) (by decide),
   (claim_C7_parse_date "2026-10-11" (fun _ => none)).2.1 ['4', '5', '0', '0', '0']
      (by decide) (by decide) (by decide) (by decide),
   (claim_C7_parse_date "2026-10-11" (fun _ => none)).2.2.2.1 "not a date!"
      (by decide) (by decide) rfl⟩

/-- **C10 counterexample**: `fxCatTxn` already carries category
`Shopping`; approving its match with `fxCatRcpt` (category
`Food & Dining`) keeps `Shopping` — the match's category is *not*
applied when the transaction already has one. -/
theorem claim_C10_counterexample :
    (applyMatches [fxApproved] [fxCatTxn] [fxCatRcpt]).1 =
      [{ fxCatTxn with matched := some true, matchedReceiptId := some "r1" }] ∧
    fxCatTxn.category = some "Shopping" ∧
    fxCatRcpt.category = some "Food & Dining" ∧
    (applyMatches [fxApproved] [fxCatTxn] [fxCatRcpt]).1.map (·.category) ≠
      [fxCatRcpt.category] := by
  refine ⟨?_, rfl, rfl, ?_⟩ <;>
    simp +decide [applyMatches, fxApproved, fxCatTxn, fxCatRcpt]

/-- **C10 amended**: `applyMatches` is the independent per-item update:
a transaction referenced by the first approved match carrying a
suggested receipt is flagged consumed, back-references the receipt id,
and takes the receipt's category only when it has none (otherwise its
own category is kept); a receipt referenced by an approved match's
suggested receipt is flagged consumed; everything else — including items
referenced only by pending or rejected matches and approved matches
without a receipt — is returned unchanged in all fields. -/
theorem claim_C10_amended (ms : List TransactionMatch) (ts : List BankTransaction)
    (rs : List PhonePeReceipt) :
    ((applyMatches ms ts rs).1 = ts.map (approvedUpdateTxn ms) ∧
      (applyMatches ms ts rs).2 = rs.map (approvedUpdateRcpt ms)) ∧
    (∀ t : BankTransaction, approvedFor ms t.id = none → approvedUpdateTxn ms t = t) ∧
    (∀ (t : BankTransaction) (m : TransactionMatch), approvedFor ms t.id = some m →
      m.suggestedReceipt = none → approvedUpdateTxn ms t = t) ∧
    (∀ (t : BankTransaction) (m : TransactionMatch) (r : PhonePeReceipt),
      approvedFor ms t.id = some m → m.suggestedReceipt = some r →
      approvedUpdateTxn ms t =
        { t with
          matched := some true
          matchedReceiptId := some r.id
          category := t.category <|> r.category }) ∧
    (∀ r : PhonePeReceipt,
      (ms.filter fun m => m.status = MatchStatus.approved).find?
          (fun m => (m.suggestedReceipt.map (·.id)) = some r.id) = none →
      approvedUpdateRcpt ms r = r) := by
  refine ⟨⟨rfl, rfl⟩, ?_, ?_, ?_, ?_⟩
  · intro t h
    simp [approvedUpdateTxn, h]
  · intro t m h1 h2
    simp [approvedUpdateTxn, h1, h2]
  · intro t m r h1 h2
    simp [approvedUpdateTxn, h1, h2]
  · intro r h
    simp only [approvedUpdateRcpt]
    rw [h]

/-- Witness for `claim_C10_amended` at concrete inputs. -/
theorem claim_C10_amended_witness :
    approvedUpdateTxn [fxApproved] fxCatTxn =
      { fxCatTxn with
        matched := some true
        matchedReceiptId := some "r1"
        category := fxCatTxn.category <|> fxCatRcpt.category } :=
  (claim_C10_amended [fxApproved] [fxCatTxn] [fxCatRcpt]).2.2.2.1 fxCatTxn fxApproved
    fxCatRcpt (by decide) rfl

theorem keepBetter_true {m : RuleMatch} {acc : Option BestCat}
    (h : keepBetter m acc = true) : m.isMatch = true := Bool.and_elim_left h

theorem categorizeGo_source (text : String) :
    ∀ (rules : List CategoryRule) (acc : Option BestCat) (b : BestCat),
      categorizeGo text rules acc = some b →
      acc = some b ∨ ∃ r ∈ rules, (matchesRule text r).isMatch = true ∧
        b = ⟨r.category, (matchesRule text r).confidence, r⟩ := by
  intro rules
  induction rules with
  | nil => intro acc b h; exact Or.inl h
  | cons rule rest ih =>
    intro acc b h
    simp only [categorizeGo] at h
    by_cases hk : keepBetter (matchesRule text rule) acc = true
    · rw [if_pos hk] at h
      rcases ih _ b h with h1 | ⟨r, hr, hm, hb⟩
      · injection h1 with h1
        exact Or.inr ⟨rule, by simp, keepBetter_true hk, h1.symm⟩
      · exact Or.inr ⟨r, by simp [hr], hm, hb⟩
    · rw [if_neg hk] at h
      rcases ih _ b h with h1 | ⟨r, hr, hm, hb⟩
      · exact Or.inl h1
      · exact Or.inr ⟨r, by simp [hr], hm, hb⟩

theorem categorizeGo_dominates_acc (text : String) :
    ∀ (rules : List CategoryRule) (a : BestCat),
      ∃ b : BestCat, categorizeGo text rules (some a) = some b ∧
        a.confidence ≤ b.confidence := by
  intro rules
  induction rules with
  | nil => intro a; exact ⟨a, rfl, le_refl _⟩
  | cons rule rest ih =>
    intro a
    simp only [categorizeGo]
    by_cases hk : keepBetter (matchesRule text rule) (some a) = true
    · rw [if_pos hk]
      obtain ⟨b, hb, hle⟩ := ih ⟨rule.category, (matchesRule text rule).confidence, rule⟩
      refine ⟨b, hb, le_trans ?_ hle⟩
      have := Bool.and_elim_right hk
      simp only [decide_eq_true_eq] at this
      exact le_of_lt this
    · rw [if_neg hk]
      exact ih a

theorem categorizeGo_dominates_mem (text : String) :
    ∀ (rules : List CategoryRule) (acc : Option BestCat) (r : CategoryRule),
      r ∈ rules → (matchesRule text r).isMatch = true →
      ∃ b : BestCat, categorizeGo text rules acc = some b ∧
        (matchesRule text r).confidence ≤ b.confidence := by
  intro rules
  induction rules with
  | nil => intro acc r hr; exact absurd hr (List.not_mem_nil r)
  | cons rule rest ih =>
    intro acc r hr hm
    simp only [categorizeGo]
    rcases List.mem_cons.mp hr with rfl | hr2
    · by_cases hk : keepBetter (matchesRule text r) acc = true
      · rw [if_pos hk]
        exact categorizeGo_dominates_acc text rest ⟨r.category, (matchesRule text r).confidence, r⟩
      · rw [if_neg hk]
        simp only [keepBetter, hm, Bool.true_and] at hk
        cases acc with
        | none => simp at hk
        | some a =>
          simp only [decide_eq_true_eq, not_lt] at hk
          obtain ⟨b, hb, hle⟩ := categorizeGo_dominates_acc text rest a
          exact ⟨b, hb, le_trans hk hle⟩
    · by_cases hk : keepBetter (matchesRule text rule) acc = true
      · rw [if_pos hk]
        exact ih _ r hr2 hm
      · rw [if_neg hk]
        exact ih _ r hr2 hm

/-- **C8**: `categorizeTransaction` returns the category of a matching
rule of maximal confidence, and no category at all when every match is
below the 0.5 floor; per rule, a pattern hit yields the flat rule
confidence, a keyword-only hit with `h` of `k` keywords yields
`min(confidence * 0.7, (h / k) * confidence)`, and (for non-negative
rule confidence) a keyword-only hit never exceeds the rule's pattern
confidence. -/
theorem claim_C8_categorization :
    (∀ (text : String) (rule : CategoryRule), text ≠ "" →
      (rule.patterns.any fun pattern =>
        strIncludes (trimWS (toLowerStr text)) (toLowerStr pattern)) = true →
      matchesRule text rule = ⟨true, rule.confidence⟩) ∧
    (∀ (text : String) (rule : CategoryRule), text ≠ "" →
      (rule.patterns.any fun pattern =>
        strIncludes (trimWS (toLowerStr text)) (toLowerStr pattern)) = false →
      0 < (rule.keywords.filter fun keyword =>
        strIncludes (trimWS (toLowerStr text)) (toLowerStr keyword)).length →
      matchesRule text rule =
        ⟨true, min (rule.confidence * (7 / 10))
          ((((rule.keywords.filter fun keyword =>
              strIncludes (trimWS (toLowerStr text)) (toLowerStr keyword)).length : Rat) /
            (rule.keywords.length : Rat)) * rule.confidence)⟩) ∧
    (∀ (text : String) (rule : CategoryRule), 0 ≤ rule.confidence →
      (matchesRule text rule).confidence ≤ rule.confidence) ∧
    (∀ (input : TxnOrReceipt) (rules : List CategoryRule),
      ((categorizeTransaction input rules).category = none ∧
        (categorizeTransaction input rules).confidence = 0 ∧
        (categorizeTransaction input rules).matchedRule = none) ∨
      ∃ rule ∈ rules,
        (categorizeTransaction input rules).category = some rule.category ∧
        (categorizeTransaction input rules).matchedRule = some rule ∧
        (matchesRule (textToAnalyze input) rule).isMatch = true ∧
        (matchesRule (textToAnalyze input) rule).confidence =
          (categorizeTransaction input rules).confidence ∧
        1 / 2 ≤ (categorizeTransaction input rules).confidence ∧
        ∀ r2 ∈ rules, (matchesRule (textToAnalyze input) r2).isMatch = true →
          (matchesRule (textToAnalyze input) r2).confidence ≤
            (categorizeTransaction input rules).confidence) ∧
    (∀ (input : TxnOrReceipt) (rules : List CategoryRule),
      (∀ r ∈ rules, (matchesRule (textToAnalyze input) r).isMatch = true →
        (matchesRule (textToAnalyze input) r).confidence < 1 / 2) →
      (categorizeTransaction input rules).category = none) := by
  have hpat : ∀ (text : String) (rule : CategoryRule), text ≠ "" →
      (rule.patterns.any fun pattern =>
        strIncludes (trimWS (toLowerStr text)) (toLowerStr pattern)) = true →
      matchesRule text rule = ⟨true, rule.confidence⟩ := by
    intro text rule hne hp
    simp only [matchesRule, if_neg hne, hp]
    simp
  have hkw : ∀ (text : String) (rule : CategoryRule), text ≠ "" →
      (rule.patterns.any fun pattern =>
        strIncludes (trimWS (toLowerStr text)) (toLowerStr pattern)) = false →
      0 < (rule.keywords.filter fun keyword =>
        strIncludes (trimWS (toLowerStr text)) (toLowerStr keyword)).length →
      matchesRule text rule =
        ⟨true, min (rule.confidence * (7 / 10))
          ((((rule.keywords.filter fun keyword =>
              strIncludes (trimWS (toLowerStr text)) (toLowerStr keyword)).length : Rat) /
            (rule.keywords.length : Rat)) * rule.confidence)⟩ := by
    intro text rule hne hp hcount
    simp only [matchesRule, if_neg hne, hp]
    simp only [Bool.false_eq_true, if_false, if_pos hcount]
  have hsel : ∀ (input : TxnOrReceipt) (rules : List CategoryRule),
      ((categorizeTransaction input rules).category = none ∧
        (categorizeTransaction input rules).confidence = 0 ∧
        (categorizeTransaction input rules).matchedRule = none) ∨
      ∃ rule ∈ rules,
        (categorizeTransaction input rules).category = some rule.category ∧
        (categorizeTransaction input rules).matchedRule = some rule ∧
        (matchesRule (textToAnalyze input) rule).isMatch = true ∧
        (matchesRule (textToAnalyze input) rule).confidence =
          (categorizeTransaction input rules).confidence ∧
        1 / 2 ≤ (categorizeTransaction input rules).confidence ∧
        ∀ r2 ∈ rules, (matchesRule (textToAnalyze input) r2).isMatch = true →
          (matchesRule (textToAnalyze input) r2).confidence ≤
            (categorizeTransaction input rules).confidence := by
    intro input rules
    by_cases h0 : rules.length = 0
    · left
      simp [categorizeTransaction, h0]
    · rcases hgo : categorizeGo (textToAnalyze input) rules none with _ | best
      · left
        simp [categorizeTransaction, h0, hgo]
      · by_cases hconf : best.confidence ≥ 1 / 2
        · right
          rcases categorizeGo_source (textToAnalyze input) rules none best hgo with h1 | ⟨r, hr, hm, hb⟩
          · exact absurd h1 (by simp)
          · subst hb
            have hres : categorizeTransaction input rules =
                ⟨some r.category, (matchesRule (textToAnalyze input) r).confidence, some r⟩ := by
              simp only [categorizeTransaction, h0, if_neg, hgo]
              rw [if_neg (by simp [h0]), if_pos hconf]
            refine ⟨r, hr, ?_, ?_, hm, ?_, ?_, ?_⟩
            · rw [hres]
            · rw [hres]
            · rw [hres]
            · rw [hres]
              exact hconf
            · intro r2 hr2 hm2
              rw [hres]
              obtain ⟨b2, hb2, hle2⟩ :=
                categorizeGo_dominates_mem (textToAnalyze input) rules none r2 hr2 hm2
              rw [hgo] at hb2
              injection hb2 with hb2
              subst hb2
              simpa using hle2
        · left
          have hconf2 : ¬(2⁻¹ ≤ best.confidence) := by
            rw [ge_iff_le] at hconf
            simpa [one_div] using hconf
          simp [categorizeTransaction, h0, hgo, hconf2]
  refine ⟨hpat, hkw, ?_, hsel, ?_⟩
  · intro text rule hc
    by_cases hne : text = ""
    · simp [matchesRule, hne, hc]
    · by_cases hp : (rule.patterns.any fun pattern =>
          strIncludes (trimWS (toLowerStr text)) (toLowerStr pattern)) = true
      · simp [hpat text rule hne hp]
      · by_cases hcount : 0 < (rule.keywords.filter fun keyword =>
            strIncludes (trimWS (toLowerStr text)) (toLowerStr keyword)).length
        · rw [hkw text rule hne (by simpa using hp) hcount]
          refine le_trans (min_le_left _ _) ?_
          calc rule.confidence * (7 / 10) ≤ rule.confidence * 1 := by
                exact mul_le_mul_of_nonneg_left (by norm_num) hc
            _ = rule.confidence := mul_one _
        · simp only [matchesRule, if_neg hne]
          rw [if_neg (by simpa using hp), if_neg hcount]
          exact hc
  · intro input rules hlow
    rcases hsel input rules with ⟨h1, -, -⟩ | ⟨rule, hr, -, -, hm, hcf, hge, -⟩
    · exact h1
    · exact absurd (lt_of_lt_of_le (hlow rule hr hm) (hcf ▸ hge)) (lt_irrefl _)

/-- Witness for `claim_C8_categorization` at a concrete rule and texts:
a pattern hit yields the flat confidence, and a keyword-only hit stays
below it. -/
theorem claim_C8_witness :
    matchesRule "paid via bookmyshow app" fxKwRule = ⟨true, fxKwRule.confidence⟩ ∧
    (matchesRule "movie ticket counter" fxKwRule).confidence ≤ fxKwRule.confidence :=
  ⟨claim_C8_categorization.1 "paid via bookmyshow app" fxKwRule (by decide) (by decide),
   claim_C8_categorization.2.2.1 "movie ticket counter" fxKwRule
     (by norm_num [fxKwRule])⟩

theorem findIdxP_spec {α : Type} {p : α → Bool} :
    ∀ (l : List α) (i : Nat), findIdxP p l = some i →
      ∃ h : i < l.length, p (l.get ⟨i, h⟩) = true := by
  intro l
  induction l with
  | nil => intro i h; simp [findIdxP] at h
  | cons a as ih =>
    intro i h
    simp only [findIdxP] at h
    by_cases hp : p a = true
    · rw [if_pos hp] at h
      injection h with h
      subst h
      exact ⟨by simp, hp⟩
    · rw [if_neg hp] at h
      rcases hi : findIdxP p as with _ | i0
      · rw [hi] at h; simp at h
      · rw [hi] at h
        simp only [Option.map_some'] at h
        injection h with h
        subst h
        obtain ⟨hlt, hget⟩ := ih i0 hi
        exact ⟨by simp [Nat.succ_lt_succ hlt], hget⟩

theorem nodup_id_unique (rules : List CategoryRule)
    (hnd : (rules.map (·.id)).Nodup) (er : CategoryRule) (her : er ∈ rules)
    (i : Nat) (hi : i < rules.length) (hid : (rules.get ⟨i, hi⟩).id = er.id) :
    rules.get ⟨i, hi⟩ = er := by
  obtain ⟨k, hkeq⟩ := List.mem_iff_get.mp her
  have hmap : ∀ (j : Nat) (hj : j < rules.length),
      (rules.map (·.id)).get ⟨j, by simpa using hj⟩ = (rules.get ⟨j, hj⟩).id := by
    intro j hj
    simp [List.get_eq_getElem]
  have hik : ({ val := i, isLt := by simpa using hi } : Fin (rules.map (·.id)).length) =
      { val := k.1, isLt := by simpa using k.2 } := by
    apply (List.Nodup.get_inj_iff hnd).mp
    rw [hmap i hi, hmap k.1 k.2]
    rw [hid]
    rw [show rules.get ⟨k.1, k.2⟩ = er from by cases k; exact hkeq]
  have : i = k.1 := congrArg Fin.val hik
  subst this
  cases k
  exact hkeq

theorem learnMerge_shape (nowISO freshId : String) (fb : Option String)
    (approvedCategory : Category) (merchantName : String) (allKeywords : List String)
    (rules : List CategoryRule) :
    learnMerge nowISO freshId fb approvedCategory merchantName allKeywords rules = rules ∨
    learnMerge nowISO freshId fb approvedCategory merchantName allKeywords rules =
      rules ++ [newUserRule nowISO freshId fb approvedCategory merchantName allKeywords] ∨
    ∃ (i : Nat) (er : CategoryRule) (hi : i < rules.length),
      er ∈ rules ∧
      existingRulePred approvedCategory allKeywords merchantName er = true ∧
      (rules.get ⟨i, hi⟩).id = er.id ∧
      learnMerge nowISO freshId fb approvedCategory merchantName allKeywords rules =
        rules.set i (enhanceRule nowISO fb merchantName allKeywords er) := by
  simp only [learnMerge]
  rcases hfind : rules.find? (existingRulePred approvedCategory allKeywords merchantName)
    with _ | er
  · dsimp only
    by_cases hc : shouldCreateRuleOf fb = true
    · rw [if_pos hc]
      exact Or.inr (Or.inl rfl)
    · rw [if_neg hc]
      exact Or.inl rfl
  · have her : er ∈ rules := List.mem_of_find?_eq_some hfind
    have hpred : existingRulePred approvedCategory allKeywords merchantName er = true :=
      List.find?_some hfind
    dsimp only
    by_cases hc : shouldCreateRuleOf fb = true
    · rw [if_pos hc]
      split
      next i hidx =>
        obtain ⟨hi, hpi⟩ := findIdxP_spec rules i hidx
        simp only [decide_eq_true_eq] at hpi
        exact Or.inr (Or.inr ⟨i, er, hi, her, hpred, hpi, rfl⟩)
      next hidx => exact Or.inl rfl
    · rw [if_neg hc]
      exact Or.inl rfl

theorem learnMerge_preserves_at (nowISO freshId : String) (fb : Option String)
    (approvedCategory : Category) (merchantName : String) (allKeywords : List String)
    (rules : List CategoryRule) (hnd : (rules.map (·.id)).Nodup)
    (j : Nat) (hj : j < rules.length)
    (hsys : (rules.get ⟨j, hj⟩).createdBy = CreatedBy.system) :
    ∃ hj2 : j < (learnMerge nowISO freshId fb approvedCategory merchantName
        allKeywords rules).length,
      (learnMerge nowISO freshId fb approvedCategory merchantName allKeywords
        rules).get ⟨j, hj2⟩ = rules.get ⟨j, hj⟩ := by
  rcases learnMerge_shape nowISO freshId fb approvedCategory merchantName allKeywords rules
    with heq | heq | ⟨i, er, hi, her, hpred, hid, heq⟩
  · rw [heq]
    exact ⟨hj, rfl⟩
  · rw [heq]
    refine ⟨by simp; omega, ?_⟩
    simp [List.get_eq_getElem, List.getElem_append_left hj]
  · have huser : er.createdBy = CreatedBy.user := by
      simp only [existingRulePred, Bool.and_eq_true, decide_eq_true_eq] at hpred
      exact hpred.1.2
    have hieq : rules.get ⟨i, hi⟩ = er := nodup_id_unique rules hnd er her i hi hid
    have hne : i ≠ j := by
      intro hcon
      subst hcon
      rw [hieq, huser] at hsys
      exact CreatedBy.noConfusion hsys
    rw [heq]
    refine ⟨by simpa using hj, ?_⟩
    simp only [List.get_eq_getElem]
    exact List.getElem_set_ne hne _

theorem penaltyStep_shape (nowISO merchantName : String) (allKeywords : List String)
    (approvedCategory : Category) (auto : Option Category) (rules : List CategoryRule) :
    penaltyStep nowISO merchantName allKeywords approvedCategory auto rules = rules ∨
    ∃ a, auto = some a ∧ a ≠ approvedCategory ∧
      penaltyStep nowISO merchantName allKeywords approvedCategory auto rules =
        rules.map fun rule =>
          if rule.category = a ∧ penaltyHits merchantName allKeywords rule = true then
            penalizeRule nowISO rule
          else rule := by
  simp only [penaltyStep]
  rcases auto with _ | a
  · exact Or.inl rfl
  · dsimp only
    by_cases hne : a ≠ approvedCategory
    · rw [if_pos hne]
      exact Or.inr ⟨a, rfl, hne, rfl⟩
    · rw [if_neg hne]
      exact Or.inl rfl

theorem penaltyStep_preserves_at (nowISO merchantName : String)
    (allKeywords : List String) (approvedCategory : Category)
    (auto : Option Category) (rules : List CategoryRule)
    (j : Nat) (hj : j < rules.length) :
    ∃ hj2 : j < (penaltyStep nowISO merchantName allKeywords approvedCategory
        auto rules).length,
      (penaltyStep nowISO merchantName allKeywords approvedCategory auto
          rules).get ⟨j, hj2⟩ = rules.get ⟨j, hj⟩ ∨
      (penaltyStep nowISO merchantName allKeywords approvedCategory auto
          rules).get ⟨j, hj2⟩ = penalizeRule nowISO (rules.get ⟨j, hj⟩) := by
  rcases penaltyStep_shape nowISO merchantName allKeywords approvedCategory auto rules
    with heq | ⟨a, -, -, heq⟩
  · rw [heq]
    exact ⟨hj, Or.inl rfl⟩
  · rw [heq]
    refine ⟨by simpa using hj, ?_⟩
    simp only [List.get_eq_getElem, List.getElem_map]
    by_cases hcond : (rules[j]).category = a ∧
        penaltyHits merchantName allKeywords rules[j] = true
    · rw [if_pos hcond]
      exact Or.inr rfl
    · rw [if_neg hcond]
      exact Or.inl rfl

theorem penalizeRule_fields (nowISO : String) (r : CategoryRule) :
    (penalizeRule nowISO r).id = r.id ∧ (penalizeRule nowISO r).name = r.name ∧
    (penalizeRule nowISO r).category = r.category ∧
    (penalizeRule nowISO r).patterns = r.patterns ∧
    (penalizeRule nowISO r).keywords = r.keywords ∧
    (penalizeRule nowISO r).createdBy = r.createdBy ∧
    (penalizeRule nowISO r).usageCount = r.usageCount ∧
    (penalizeRule nowISO r).lastUsed = r.lastUsed ∧
    (penalizeRule nowISO r).confidence = max (3 / 10) (r.confidence - 1 / 10) := by
  simp [penalizeRule]

/-- **C5 counterexample**: `fxSysRule` is a system rule with confidence
0.9; a correction (`fxCorrTxn` auto-categorized `Food & Dining`,
approved as `Shopping`, sharing the keyword `food`) passes through
`learnFromApprovedMatch` and the system rule comes back with confidence
0.8 — a system rule *was* confidence-adjusted. -/
theorem claim_C5_counterexample :
    (learnFromApprovedMatch "N" "id1" fxCorrTxn none "Shopping" [fxSysRule]
        none).head?.map (fun r => (r.id, r.createdBy, r.confidence)) =
      some ("s1", CreatedBy.system, 4 / 5) ∧
    fxSysRule.confidence = 9 / 10 ∧ ((4 : Rat) / 5) ≠ 9 / 10 := by
  refine ⟨?_, rfl, by norm_num⟩
  simp +decide [learnFromApprovedMatch, learnMerge, penaltyStep, penalizeRule, penaltyHits,
    newUserRule, allKeywordsOf, merchantNameOf, shouldCreateRuleOf, isBulkTrainingOf,
    isRecurringOf, applyToSimilarOf, confidenceLevelOf, baseConfidenceOf, fbHas,
    existingRulePred, dedupKeepFirst, dedupGo, splitWS, splitWSGo, splitWSSkip,
    toLowerStr, trimWS, strIncludes, includesL, isPrefixL, strTake, noiseWords,
    emptyMeta, fxCorrTxn, fxSysRule]
  norm_num

/-- **C5 amended**: when rule ids are pairwise distinct, every system
rule survives `learnFromApprovedMatch` at its position with id, name,
category, patterns, keywords, creator, usage count and last-used
timestamp untouched — system rules are never deleted, merged or
re-attributed — but the confidence is not immutable: it is either
unchanged or reduced by the correction penalty to
`max(0.3, confidence - 0.1)`. -/
theorem claim_C5_amended (nowISO freshId : String) (transaction : BankTransaction)
    (receipt : Option PhonePeReceipt) (approvedCategory : Category)
    (rules : List CategoryRule) (fb : Option String)
    (hnd : (rules.map (·.id)).Nodup) (j : Nat) (hj : j < rules.length)
    (hsys : (rules.get ⟨j, hj⟩).createdBy = CreatedBy.system) :
    ∃ hj2 : j < (learnFromApprovedMatch nowISO freshId transaction receipt
        approvedCategory rules fb).length,
      systemRulePreserved (rules.get ⟨j, hj⟩)
        ((learnFromApprovedMatch nowISO freshId transaction receipt approvedCategory
          rules fb).get ⟨j, hj2⟩) := by
  by_cases hearly : (decide ((allKeywordsOf transaction receipt fb).length = 0) &&
      !shouldCreateRuleOf fb) = true
  · have heq : learnFromApprovedMatch nowISO freshId transaction receipt
        approvedCategory rules fb = rules := by
      simp only [learnFromApprovedMatch]
      rw [if_pos hearly]
    rw [heq]
    exact ⟨hj, rfl, rfl, rfl, rfl, rfl, hsys, rfl, rfl, Or.inl rfl⟩
  · have heq : learnFromApprovedMatch nowISO freshId transaction receipt
        approvedCategory rules fb =
        penaltyStep nowISO (merchantNameOf receipt)
          (allKeywordsOf transaction receipt fb) approvedCategory
          (transaction.category <|> receipt.bind (·.category))
          (learnMerge nowISO freshId fb approvedCategory (merchantNameOf receipt)
            (allKeywordsOf transaction receipt fb) rules) := by
      simp only [learnFromApprovedMatch]
      rw [if_neg hearly]
    rw [heq]
    obtain ⟨hm1, hm2⟩ := learnMerge_preserves_at nowISO freshId fb approvedCategory
      (merchantNameOf receipt) (allKeywordsOf transaction receipt fb) rules hnd j hj hsys
    obtain ⟨hp1, hp2⟩ := penaltyStep_preserves_at nowISO (merchantNameOf receipt)
      (allKeywordsOf transaction receipt fb) approvedCategory
      (transaction.category <|> receipt.bind (·.category))
      (learnMerge nowISO freshId fb approvedCategory (merchantNameOf receipt)
        (allKeywordsOf transaction receipt fb) rules) j hm1
    refine ⟨hp1, ?_⟩
    rcases hp2 with hp2 | hp2 <;> rw [hp2, hm2]
    · exact ⟨rfl, rfl, rfl, rfl, rfl, hsys, rfl, rfl, Or.inl rfl⟩
    · obtain ⟨f1, f2, f3, f4, f5, f6, f7, f8, f9⟩ :=
        penalizeRule_fields nowISO (rules.get ⟨j, hj⟩)
      exact ⟨f1, f2, f3, f4, f5, f6.trans hsys, f7, f8, Or.inr f9⟩

/-- Witness for `claim_C5_amended` at a concrete system rule list. -/
theorem claim_C5_amended_witness :
    ∃ hj2 : 0 < (learnFromApprovedMatch "N" "id1" fxBareTxn none "Shopping"
        [fxSysRule] none).length,
      systemRulePreserved (([fxSysRule] : List CategoryRule).get ⟨0, by decide⟩)
        ((learnFromApprovedMatch "N" "id1" fxBareTxn none "Shopping"
          [fxSysRule] none).get ⟨0, hj2⟩) :=
  claim_C5_amended "N" "id1" fxBareTxn none "Shopping" [fxSysRule] none
    (by decide) 0 (by decide) rfl

theorem isPrefixL_refl : ∀ l : List Char, isPrefixL l l = true := by
  intro l
  induction l with
  | nil => rfl
  | cons a as ih => simp [isPrefixL, ih]

theorem strIncludes_self (s : String) : strIncludes s s = true := by
  simp only [strIncludes]
  cases h : s.data with
  | nil => simp [includesL, isPrefixL]
  | cons a as => simp [includesL, ← h, isPrefixL_refl]

theorem findIdxP_append_none {α : Type} {p : α → Bool} :
    ∀ (l1 l2 : List α), (∀ x ∈ l1, p x = false) →
      findIdxP p (l1 ++ l2) = (findIdxP p l2).map (· + l1.length) := by
  intro l1
  induction l1 with
  | nil => intro l2 h; simp [Option.map_id]
  | cons a as ih =>
    intro l2 h
    have ha : p a = false := h a (by simp)
    simp only [List.cons_append, findIdxP, ha, Bool.false_eq_true, if_false]
    rw [List.append_eq, ih l2 fun x hx => h x (by simp [hx])]
    rcases findIdxP p l2 with _ | i <;> simp
    omega

theorem set_append_last {α : Type} (x y : α) :
    ∀ l1 : List α, (l1 ++ [x]).set l1.length y = l1 ++ [y] := by
  intro l1
  induction l1 with
  | nil => rfl
  | cons a as ih => simp [List.set, ih]

/-- **C9 counterexample**: with no receipt and a description carrying no
word longer than three characters, `fxBareTxn` yields an empty keyword
set; approving it twice with the same category appends a *second*,
duplicate user rule (same category, same empty pattern list, same empty
merchant) instead of enhancing the first, and neither rule's
`usageCount` rises above 1. -/
theorem claim_C9_counterexample :
    (learnFromApprovedMatch "N2" "id2" fxBareTxn none "Shopping"
        (learnFromApprovedMatch "N1" "id1" fxBareTxn none "Shopping" [] none)
        none).map (fun r => (r.category, r.createdBy, r.patterns, r.usageCount)) =
      [("Shopping", CreatedBy.user, [], 1), ("Shopping", CreatedBy.user, [], 1)] := by
  simp +decide [learnFromApprovedMatch, learnMerge, penaltyStep, penalizeRule, penaltyHits,
    newUserRule, enhanceRule, allKeywordsOf, merchantNameOf, shouldCreateRuleOf,
    isBulkTrainingOf, isRecurringOf, applyToSimilarOf, confidenceLevelOf, baseConfidenceOf,
    fbHas, existingRulePred, dedupKeepFirst, dedupGo, splitWS, splitWSGo, splitWSSkip,
    toLowerStr, trimWS, strIncludes, includesL, isPrefixL, strTake, noiseWords,
    emptyMeta, findIdxP, fxBareTxn]

/-- **C9 amended**: repeat approval behaves as claimed once the evidence
is non-empty and identifiable: for a receipt with a non-empty merchant
name, a transaction and receipt without prior categories, no existing
user rules, and a fresh first rule id, the first approval appends
exactly one user rule with `usageCount = 1`, and the second approval
enhances that same rule in place — `usageCount` becomes 2, the list
length does not grow, and no duplicate rule is created. An approval with
no merchant and no usable keywords (see the counterexample) falls
outside this guarantee. -/
theorem claim_C9_amended (now1 now2 id1 id2 : String) (t : BankTransaction)
    (rc : PhonePeReceipt) (cat : Category) (rules0 : List CategoryRule)
    (hmerch : rc.merchant ≠ "") (hrc : rc.category = none) (ht : t.category = none)
    (hnouser : ∀ r ∈ rules0, r.createdBy ≠ CreatedBy.user)
    (hid : ∀ r ∈ rules0, r.id ≠ id1) :
    learnFromApprovedMatch now1 id1 t (some rc) cat rules0 none =
      rules0 ++ [newUserRule now1 id1 none cat rc.merchant
        (allKeywordsOf t (some rc) none)] ∧
    learnFromApprovedMatch now2 id2 t (some rc) cat
        (learnFromApprovedMatch now1 id1 t (some rc) cat rules0 none) none =
      rules0 ++ [enhanceRule now2 none rc.merchant (allKeywordsOf t (some rc) none)
        (newUserRule now1 id1 none cat rc.merchant (allKeywordsOf t (some rc) none))] ∧
    (newUserRule now1 id1 none cat rc.merchant
      (allKeywordsOf t (some rc) none)).usageCount = 1 ∧
    (enhanceRule now2 none rc.merchant (allKeywordsOf t (some rc) none)
      (newUserRule now1 id1 none cat rc.merchant
        (allKeywordsOf t (some rc) none))).usageCount = 2 ∧
    (learnFromApprovedMatch now2 id2 t (some rc) cat
        (learnFromApprovedMatch now1 id1 t (some rc) cat rules0 none) none).length =
      (learnFromApprovedMatch now1 id1 t (some rc) cat rules0 none).length := by
  have hshould : shouldCreateRuleOf none = true := rfl
  have hauto : (t.category <|> (some rc).bind (·.category)) = none := by
    simp [ht, hrc]
  have hcond : (decide ((allKeywordsOf t (some rc) none).length = 0) &&
      !shouldCreateRuleOf none) = false := by
    rw [hshould]
    simp
  have hnr : newUserRule now1 id1 none cat rc.merchant
      (allKeywordsOf t (some rc) none) = newUserRule now1 id1 none cat
      (merchantNameOf (some rc)) (allKeywordsOf t (some rc) none) := rfl
  -- first call
  have h1 : learnFromApprovedMatch now1 id1 t (some rc) cat rules0 none =
      rules0 ++ [newUserRule now1 id1 none cat rc.merchant
        (allKeywordsOf t (some rc) none)] := by
    simp only [learnFromApprovedMatch]
    rw [if_neg (by rw [hcond]; simp)]
    have hfind : rules0.find? (existingRulePred cat (allKeywordsOf t (some rc) none)
        (merchantNameOf (some rc))) = none := by
      rw [List.find?_eq_none]
      intro r hr
      simp only [existingRulePred, Bool.and_eq_true, decide_eq_true_eq, not_and]
      intro hab _
      exact absurd hab.2 (hnouser r hr)
    have hmerge : learnMerge now1 id1 none cat (merchantNameOf (some rc))
        (allKeywordsOf t (some rc) none) rules0 =
        rules0 ++ [newUserRule now1 id1 none cat (merchantNameOf (some rc))
          (allKeywordsOf t (some rc) none)] := by
      simp only [learnMerge, hfind]
      rw [if_pos hshould]
    rw [hmerge, hauto]
    rfl
  have h2 : learnFromApprovedMatch now2 id2 t (some rc) cat
      (learnFromApprovedMatch now1 id1 t (some rc) cat rules0 none) none =
      rules0 ++ [enhanceRule now2 none rc.merchant (allKeywordsOf t (some rc) none)
        (newUserRule now1 id1 none cat rc.merchant
          (allKeywordsOf t (some rc) none))] := by
    rw [h1]
    simp only [learnFromApprovedMatch]
    rw [if_neg (by rw [hcond]; simp)]
    have hprednr : existingRulePred cat (allKeywordsOf t (some rc) none)
        (merchantNameOf (some rc)) (newUserRule now1 id1 none cat rc.merchant
          (allKeywordsOf t (some rc) none)) = true := by
      simp only [existingRulePred, newUserRule, merchantNameOf, Option.map_some',
        Option.getD_some]
      rw [if_pos hmerch]
      simp [hmerch, strIncludes_self]
    have hfind : (rules0 ++ [newUserRule now1 id1 none cat rc.merchant
        (allKeywordsOf t (some rc) none)]).find?
        (existingRulePred cat (allKeywordsOf t (some rc) none)
          (merchantNameOf (some rc))) =
        some (newUserRule now1 id1 none cat rc.merchant
          (allKeywordsOf t (some rc) none)) := by
      rw [List.find?_append]
      rw [List.find?_eq_none.mpr (fun r hr => by
        simp only [existingRulePred, Bool.and_eq_true, decide_eq_true_eq, not_and]
        intro hab _
        exact absurd hab.2 (hnouser r hr))]
      simp [List.find?, hprednr]
    have hidx : findIdxP (fun r => r.id = (newUserRule now1 id1 none cat rc.merchant
        (allKeywordsOf t (some rc) none)).id)
        (rules0 ++ [newUserRule now1 id1 none cat rc.merchant
          (allKeywordsOf t (some rc) none)]) = some rules0.length := by
      rw [findIdxP_append_none]
      · simp [findIdxP]
      · intro r hr
        simp only [newUserRule, decide_eq_false_iff_not]
        exact hid r hr
    have hmerge2 : learnMerge now2 id2 none cat (merchantNameOf (some rc))
        (allKeywordsOf t (some rc) none)
        (rules0 ++ [newUserRule now1 id1 none cat rc.merchant
          (allKeywordsOf t (some rc) none)]) =
        rules0 ++ [enhanceRule now2 none (merchantNameOf (some rc))
          (allKeywordsOf t (some rc) none)
          (newUserRule now1 id1 none cat rc.merchant
            (allKeywordsOf t (some rc) none))] := by
      simp only [learnMerge, hfind]
      rw [if_pos hshould, hidx]
      exact set_append_last _ _ rules0
    rw [hmerge2, hauto]
    rfl
  refine ⟨h1, h2, rfl, rfl, ?_⟩
  rw [h2, h1]
  simp

/-- Witness for `claim_C9_amended` at a concrete pair: repeat approval
of the `Chai Point` receipt enhances the rule (`usageCount` 1 then 2)
without growing the rule list. -/
theorem claim_C9_amended_witness :
    (newUserRule "N1" "id1" none "Food & Dining" fxChaiRcpt.merchant
      (allKeywordsOf fxBareTxn (some fxChaiRcpt) none)).usageCount = 1 ∧
    (enhanceRule "N2" none fxChaiRcpt.merchant
      (allKeywordsOf fxBareTxn (some fxChaiRcpt) none)
      (newUserRule "N1" "id1" none "Food & Dining" fxChaiRcpt.merchant
        (allKeywordsOf fxBareTxn (some fxChaiRcpt) none))).usageCount = 2 ∧
    (learnFromApprovedMatch "N2" "id2" fxBareTxn (some fxChaiRcpt) "Food & Dining"
        (learnFromApprovedMatch "N1" "id1" fxBareTxn (some fxChaiRcpt) "Food & Dining"
          [] none) none).length =
      (learnFromApprovedMatch "N1" "id1" fxBareTxn (some fxChaiRcpt) "Food & Dining"
        [] none).length := by
  obtain ⟨-, -, u1, u2, hlen⟩ :=
    claim_C9_amended "N1" "N2" "id1" "id2" fxBareTxn fxChaiRcpt "Food & Dining" []
      (by decide) rfl rfl (by simp) (by simp)
  exact ⟨u1, u2, hlen⟩

theorem findBestMatchGo_mem (jsTDS : String → String) (bankTxn : BankTransaction) :
    ∀ (rs : List PhonePeReceipt) (acc : Option BestMatch) (bm : BestMatch),
      findBestMatchGo jsTDS bankTxn rs acc = some bm →
      acc = some bm ∨ (bm.receipt ∈ rs ∧ truthy bm.receipt.matched = false) := by
  intro rs
  induction rs with
  | nil => intro acc bm h; exact Or.inl h
  | cons r rest ih =>
    intro acc bm h
    simp only [findBestMatchGo] at h
    by_cases hm : truthy r.matched = true
    · rw [if_pos hm] at h
      rcases ih acc bm h with h1 | ⟨h1, h2⟩
      · exact Or.inl h1
      · exact Or.inr ⟨by simp [h1], h2⟩
    · rw [if_neg hm] at h
      by_cases hk : keepCandidate (calculateMatchScore bankTxn r
          (buildCriteria jsTDS bankTxn r)).score acc = true
      · rw [if_pos hk] at h
        rcases ih _ bm h with h1 | ⟨h1, h2⟩
        · injection h1 with h1
          subst h1
          exact Or.inr ⟨by simp, by simpa using hm⟩
        · exact Or.inr ⟨by simp [h1], h2⟩
      · rw [if_neg hk] at h
        rcases ih acc bm h with h1 | ⟨h1, h2⟩
        · exact Or.inl h1
        · exact Or.inr ⟨by simp [h1], h2⟩

theorem findBestMatch_mem (jsTDS : String → String) (bankTxn : BankTransaction)
    (rs : List PhonePeReceipt) (bm : BestMatch)
    (h : findBestMatch jsTDS bankTxn rs = some bm) :
    bm.receipt ∈ rs ∧ truthy bm.receipt.matched = false := by
  rcases findBestMatchGo_mem jsTDS bankTxn rs none bm h with h1 | h1
  · exact Option.noConfusion h1
  · exact h1

theorem findIdxP_isSome_of_mem {α : Type} {p : α → Bool} :
    ∀ (l : List α) (x : α), x ∈ l → p x = true → ∃ i, findIdxP p l = some i := by
  intro l
  induction l with
  | nil => intro x hx; exact absurd hx (List.not_mem_nil x)
  | cons a as ih =>
    intro x hx hp
    simp only [findIdxP]
    by_cases ha : p a = true
    · exact ⟨0, by rw [if_pos ha]⟩
    · rcases List.mem_cons.mp hx with rfl | hx2
      · exact absurd hp ha
      · obtain ⟨i, hi⟩ := ih x hx2 hp
        exact ⟨i + 1, by rw [if_neg ha, hi]; rfl⟩

theorem nodup_key_eq {α β : Type} (key : α → β) (l : List α)
    (hnd : (l.map key).Nodup) (i j : Nat) (hi : i < l.length) (hj : j < l.length)
    (h : key (l.get ⟨i, hi⟩) = key (l.get ⟨j, hj⟩)) : i = j := by
  have hik : ({ val := i, isLt := by simpa using hi } : Fin (l.map key).length) =
      { val := j, isLt := by simpa using hj } := by
    apply (List.Nodup.get_inj_iff hnd).mp
    simp only [List.get_eq_getElem, List.getElem_map]
    exact h
  exact congrArg Fin.val hik

theorem markReceipt_map_id (rs : List PhonePeReceipt) (sel : PhonePeReceipt) :
    (markReceipt rs sel).map (·.id) = rs.map (·.id) := by
  simp only [markReceipt]
  rcases hidx : findIdxP (fun r => r.id = sel.id) rs with _ | i <;> rw [hidx]
  · obtain ⟨hi, hpi⟩ := findIdxP_spec rs i hidx
    simp only [decide_eq_true_eq] at hpi
    rw [List.map_set]
    apply List.ext_getElem
    · simp
    · intro j hj1 hj2
      rw [List.getElem_set]
      split
      next heq =>
        subst heq
        simp only [List.getElem_map]
        simpa using hpi.symm
      next => rfl

theorem mem_markReceipt (rs : List PhonePeReceipt) (sel r : PhonePeReceipt)
    (h : r ∈ markReceipt rs sel) :
    r = { sel with matched := some true } ∨ r ∈ rs := by
  simp only [markReceipt] at h
  rcases hidx : findIdxP (fun r => r.id = sel.id) rs with _ | i <;> rw [hidx] at h
  · exact Or.inr h
  · rcases List.mem_or_eq_of_mem_set h with h1 | h1
    · exact Or.inr h1
    · exact Or.inl h1

theorem markReceipt_unavail (rs : List PhonePeReceipt) (sel : PhonePeReceipt)
    (hnd : (rs.map (·.id)).Nodup) (hsel : sel ∈ rs) :
    ∀ r ∈ markReceipt rs sel, truthy r.matched = false → r.id ≠ sel.id := by
  intro r hr hum heq
  obtain ⟨i0, hidx⟩ := findIdxP_isSome_of_mem (p := fun r => r.id = sel.id) rs sel hsel
    (by simp)
  obtain ⟨hi0, hpi0⟩ := findIdxP_spec rs i0 hidx
  simp only [decide_eq_true_eq] at hpi0
  simp only [markReceipt, hidx] at hr
  obtain ⟨j, hj, hjr⟩ := List.mem_iff_getElem.mp hr
  by_cases hij : j = i0
  · subst hij
    rw [List.getElem_set_self (by simpa using hj)] at hjr
    rw [← hjr] at hum
    simp [truthy] at hum
  · rw [List.getElem_set_ne (fun hcon => hij hcon.symm) (by simpa using hj)] at hjr
    have hj2 : j < rs.length := by simpa using hj
    have : j = i0 := by
      apply nodup_key_eq (·.id) rs hnd j i0 hj2 hi0
      simp only [List.get_eq_getElem]
      rw [hjr]
      rw [heq]
      exact hpi0.symm
    exact hij this

theorem generateMatchesGo_suggested (jsTDS : String → String) :
    ∀ (ts : List BankTransaction) (rs : List PhonePeReceipt),
      (rs.map (·.id)).Nodup →
      (suggestedReceiptIds (generateMatchesGo jsTDS ts rs)).Nodup ∧
      ∀ x ∈ suggestedReceiptIds (generateMatchesGo jsTDS ts rs),
        ∃ r ∈ rs, truthy r.matched = false ∧ r.id = x := by
  intro ts
  induction ts with
  | nil =>
    intro rs hnd
    exact ⟨List.nodup_nil, by simp [suggestedReceiptIds, generateMatchesGo]⟩
  | cons t rest ih =>
    intro rs hnd
    simp only [generateMatchesGo]
    rcases hbm : findBestMatch jsTDS t rs with _ | bm
    · simp only [suggestedReceiptIds, List.filterMap_cons]
      exact ih rs hnd
    · obtain ⟨hmem, hum⟩ := findBestMatch_mem jsTDS t rs bm hbm
      have hnd2 : ((markReceipt rs bm.receipt).map (·.id)).Nodup := by
        rw [markReceipt_map_id]
        exact hnd
      obtain ⟨ihn, iha⟩ := ih (markReceipt rs bm.receipt) hnd2
      simp only [suggestedReceiptIds, List.filterMap_cons, Option.map_some']
      constructor
      · refine List.Nodup.cons ?_ ihn
        intro hin
        obtain ⟨r, hr, hrum, hrid⟩ := iha bm.receipt.id hin
        exact markReceipt_unavail rs bm.receipt hnd hmem r hr hrum hrid
      · intro x hx
        rcases List.mem_cons.mp hx with rfl | hx2
        · exact ⟨bm.receipt, hmem, hum, rfl⟩
        · obtain ⟨r, hr, hrum, hrid⟩ := iha x hx2
          rcases mem_markReceipt rs bm.receipt r hr with rfl | hr2
          · simp [truthy] at hrum
          · exact ⟨r, hr2, hrum, hrid⟩

theorem insertByScoreDesc_perm (m : TransactionMatch) :
    ∀ l : List TransactionMatch, (insertByScoreDesc m l).Perm (m :: l) := by
  intro l
  induction l with
  | nil => exact List.Perm.refl _
  | cons x xs ih =>
    simp only [insertByScoreDesc]
    by_cases h : m.matchScore ≤ x.matchScore
    · rw [if_pos h]
      exact (ih.cons x).trans (List.Perm.swap m x xs)
    · rw [if_neg h]

theorem sortByScoreDesc_perm :
    ∀ l : List TransactionMatch, (sortByScoreDesc l).Perm l := by
  intro l
  induction l with
  | nil => exact List.Perm.refl _
  | cons x xs ih =>
    simp only [sortByScoreDesc]
    exact (insertByScoreDesc_perm x (sortByScoreDesc xs)).trans (ih.cons x)

theorem insertByScoreDesc_sorted (m : TransactionMatch) :
    ∀ l : List TransactionMatch,
      List.Pairwise (fun a b => b.matchScore ≤ a.matchScore) l →
      List.Pairwise (fun a b => b.matchScore ≤ a.matchScore) (insertByScoreDesc m l) := by
  intro l
  induction l with
  | nil => intro _; simp [insertByScoreDesc]
  | cons x xs ih =>
    intro hs
    rcases List.pairwise_cons.mp hs with ⟨hx, hxs⟩
    simp only [insertByScoreDesc]
    by_cases h : m.matchScore ≤ x.matchScore
    · rw [if_pos h]
      refine List.pairwise_cons.mpr ⟨?_, ih hxs⟩
      intro b hb
      rcases List.mem_cons.mp (((insertByScoreDesc_perm m xs).mem_iff).mp hb)
        with rfl | hb2
      · exact h
      · exact hx b hb2
    · rw [if_neg h]
      refine List.pairwise_cons.mpr ⟨?_, hs⟩
      intro b hb
      rcases List.mem_cons.mp hb with rfl | hb2
      · omega
      · exact le_trans (hx b hb2) (by omega)

theorem sortByScoreDesc_sorted :
    ∀ l : List TransactionMatch,
      List.Pairwise (fun a b => b.matchScore ≤ a.matchScore) (sortByScoreDesc l) := by
  intro l
  induction l with
  | nil => simp [sortByScoreDesc]
  | cons x xs ih =>
    simp only [sortByScoreDesc]
    exact insertByScoreDesc_sorted x (sortByScoreDesc xs) ih

theorem generateMatchesGo_map_bank (jsTDS : String → String) :
    ∀ (ts : List BankTransaction) (rs : List PhonePeReceipt),
      (generateMatchesGo jsTDS ts rs).map (·.bankTransaction) = ts := by
  intro ts
  induction ts with
  | nil => intro rs; rfl
  | cons t rest ih =>
    intro rs
    simp only [generateMatchesGo]
    rcases hbm : findBestMatch jsTDS t rs with _ | bm <;>
      simp [ih]

theorem generateMatchesGo_none_entry (jsTDS : String → String) :
    ∀ (ts : List BankTransaction) (rs : List PhonePeReceipt),
      ∀ m ∈ generateMatchesGo jsTDS ts rs, m.suggestedReceipt = none →
        m.matchScore = 0 ∧ m.matchReasons = ["No suitable match found"] := by
  intro ts
  induction ts with
  | nil => intro rs m hm; exact absurd hm (List.not_mem_nil m)
  | cons t rest ih =>
    intro rs m hm hnone
    simp only [generateMatchesGo] at hm
    rcases hbm : findBestMatch jsTDS t rs with _ | bm <;> rw [hbm] at hm
    · rcases List.mem_cons.mp hm with rfl | hm2
      · exact ⟨rfl, rfl⟩
      · exact ih rs m hm2 hnone
    · rcases List.mem_cons.mp hm with rfl | hm2
      · simp at hnone
      · exact ih _ m hm2 hnone

/-- **C1 counterexample**: two receipts carrying the *same* id `"r1"`
defeat the consumption bookkeeping (which marks only the first receipt
with a given id): both transactions get a suggested receipt with id
`"r1"`, so one receipt id is referenced twice in a single pass. -/
theorem claim_C1_counterexample :
    suggestedReceiptIds
        (generateMatches id [fxLagTxn, fxDupTxn2] [fxDupRcptB, fxDupRcptB]) =
      ["r1", "r1"] ∧
    ¬(["r1", "r1"] : List String).Nodup := by
  refine ⟨?_, by decide⟩
  simp +decide [generateMatches, generateMatchesGo, findBestMatch, findBestMatchGo,
    keepCandidate, buildCriteria, isSameDate, checkMerchantMatch, calculateMatchScore,
    markReceipt, findIdxP, sortByScoreDesc, insertByScoreDesc, truthy,
    suggestedReceiptIds, fxLagTxn, fxDupTxn2, fxDupRcptB]

/-- **C1 amended**: when the receipts carry pairwise-distinct ids (the
data model's uniqueness invariant), no two `TransactionMatch` entries of
one `generateMatches` pass reference the same receipt id as
`suggestedReceipt` — a receipt consumed by one transaction is unavailable
to all later transactions of the pass, for every date-rendering
collaborator. -/
theorem claim_C1_amended (jsTDS : String → String)
    (bankTransactions : List BankTransaction) (receipts : List PhonePeReceipt)
    (hnd : (receipts.map (·.id)).Nodup) :
    (suggestedReceiptIds (generateMatches jsTDS bankTransactions receipts)).Nodup := by
  have hperm : (suggestedReceiptIds (generateMatches jsTDS bankTransactions
      receipts)).Perm (suggestedReceiptIds (generateMatchesGo jsTDS
        (bankTransactions.filter fun txn => !truthy txn.matched) receipts)) := by
    exact List.Perm.filterMap _
      (sortByScoreDesc_perm (generateMatchesGo jsTDS
        (bankTransactions.filter fun txn => !truthy txn.matched) receipts))
  exact hperm.nodup_iff.mpr
    (generateMatchesGo_suggested jsTDS
      (bankTransactions.filter fun txn => !truthy txn.matched) receipts hnd).1

/-- Witness for `claim_C1_amended` at concrete inputs. -/
theorem claim_C1_amended_witness :
    (suggestedReceiptIds (generateMatches id [fxLagTxn, fxDupTxn2] [fxDupRcptB])).Nodup :=
  claim_C1_amended id [fxLagTxn, fxDupTxn2] [fxDupRcptB] (by decide)

/-- **C2**: one `generateMatches` pass emits exactly one entry per input
transaction not already flagged `matched` (as a multiset equality up to
the final sort); entries with no accepted receipt carry
`suggestedReceipt = none`, `matchScore = 0` and the explanatory reason;
and the output is sorted by descending `matchScore`. -/
theorem claim_C2_per_transaction (jsTDS : String → String)
    (bankTransactions : List BankTransaction) (receipts : List PhonePeReceipt) :
    ((generateMatches jsTDS bankTransactions receipts).map (·.bankTransaction)).Perm
      (bankTransactions.filter fun txn => !truthy txn.matched) ∧
    (∀ m ∈ generateMatches jsTDS bankTransactions receipts,
      m.suggestedReceipt = none →
        m.matchScore = 0 ∧ m.matchReasons = ["No suitable match found"]) ∧
    List.Pairwise (fun a b => b.matchScore ≤ a.matchScore)
      (generateMatches jsTDS bankTransactions receipts) := by
  refine ⟨?_, ?_, sortByScoreDesc_sorted _⟩
  · have := List.Perm.map (·.bankTransaction)
      (sortByScoreDesc_perm (generateMatchesGo jsTDS
        (bankTransactions.filter fun txn => !truthy txn.matched) receipts))
    rw [generateMatchesGo_map_bank] at this
    exact this
  · intro m hm hnone
    have hm2 : m ∈ generateMatchesGo jsTDS
        (bankTransactions.filter fun txn => !truthy txn.matched) receipts :=
      (sortByScoreDesc_perm _).mem_iff.mp hm
    exact generateMatchesGo_none_entry jsTDS _ receipts m hm2 hnone

/-- Witness for `claim_C2_per_transaction` at concrete inputs: with no
receipts, the only transaction yields the no-match entry. -/
theorem claim_C2_witness :
    (⟨fxLagTxn, none, 0, ["No suitable match found"], .pending⟩ :
        TransactionMatch).matchScore = 0 ∧
    (⟨fxLagTxn, none, 0, ["No suitable match found"], .pending⟩ :
        TransactionMatch).matchReasons = ["No suitable match found"] :=
  (claim_C2_per_transaction id [fxLagTxn] []).2.1
    ⟨fxLagTxn, none, 0, ["No suitable match found"], .pending⟩ (by decide) rfl
